import Mathlib

/-!
# Reference-resolution engine of `openapi3/swagger_loader.go` — shallow embedding

This file embeds the reference-resolution engine (`SwaggerLoader.ResolveRefsIn`
and the per-kind `resolveXxxRef` functions together with `resolveComponent`)
of `openapi3/swagger_loader.go` and proves/refutes the frozen claims about it.

Modelling conventions:
* Go strings are modelled as `List Char` (`GoStr`); `strings.HasPrefix` is
  `List.isPrefixOf`, `ref[len(pre):]` is `List.drop`, `strings.IndexByte id '/' >= 0`
  is `List.contains id '/'`.
* Go pointers to `Ref` nodes (`*HeaderRef`, `*SchemaRef`, …) are modelled as
  arena handles: a `RefId` is a kind tag plus an index.  The `visited`
  map of the loader (keyed by pointer identity) becomes a list of `RefId`s.
* The only mutation the engine performs is writing the `Value` field of Ref
  nodes (`component.Value = resolved.Value`); the mutable `Value` fields are
  collected in `State.value : RefId → Option Nat` (`none` = Go `nil` pointer,
  `some v` = pointer to the value struct with arena index `v`).  All other
  fields of the document graph are immutable and live in `Env` / `Doc`.
* Value structs (`Header`, `Schema`, `MediaType`, …) are never mutated by the
  engine, so their fields are immutable arena functions in `Env`
  (e.g. `schItems v` is the `Items` field of the `Schema` struct at index `v`).
* A Go `nil` map or `nil` pointer distinguished from a present one is an
  `Option`.  Map iteration is modelled as association-list iteration in list
  order (Go map order is unspecified; the concrete order is a model choice).
* Fallible code returns `State × Option RErr` (`none` = Go `nil` error).
  A Go runtime panic from dereferencing a `nil` pointer (which the schema
  resolver can hit at `value.Items`, and the request-body resolver at
  `contentType.Schema`) is modelled by the distinguished outcome
  `RErr.nilDeref`.  Unbounded Go recursion is modelled with a fuel parameter;
  `RErr.outOfFuel` is a model artifact meaning the recursion-depth budget was
  exhausted, it corresponds to no Go value.
* `url.Parse` + fragment handling of `resolveComponent` is modelled by
  splitting the reference at its first `'#'`: the part before it is the
  document locator handed to the loader, the part after it is the fragment
  (as in Go, the fragment does not include the leading `'#'`).
  `LoadSwaggerFromURI` is the pluggable Document Loader collaborator and is
  modelled as `Env.load : GoStr → Option Doc`; calls to it are logged in
  `State.loaderCalls` so that "the loader was invoked" is observable.
-/

instance {ε α : Type} [DecidableEq ε] [DecidableEq α] : DecidableEq (Except ε α) := by
  intro a b
  cases a <;> cases b
  case error.error e f => exact if h : e = f then .isTrue (by rw [h]) else .isFalse (by simpa using h)
  case error.ok _ _ => exact .isFalse (fun h => Except.noConfusion h)
  case ok.error _ _ => exact .isFalse (fun h => Except.noConfusion h)
  case ok.ok x y => exact if h : x = y then .isTrue (by rw [h]) else .isFalse (by simpa using h)

/-- Go strings, as lists of characters. -/
abbrev GoStr := List Char

/-- The seven component kinds of the engine. -/
inductive Kind where
  | header | param | reqBody | resp | schema | secScheme | example
deriving DecidableEq, Repr

/-- A handle for one `Ref` node (`*HeaderRef`, `*SchemaRef`, …): Go pointer
identity becomes a kind tag plus an arena index. -/
structure RefId where
  kind : Kind
  idx  : Nat
deriving DecidableEq, Repr

/-- Error outcomes of the engine.  The first four mirror the error
constructors of `swagger_loader.go`; `nilDeref` models a Go nil-pointer
panic; `outOfFuel` is the fuel-exhaustion model artifact. -/
inductive RErr where
  | disallowedExternalRef (ref : GoStr)      -- "Encountered non-allowed external reference"
  | loaderFailed (ref : GoStr)               -- "Error while resolving reference ...": LoadSwaggerFromURI failed
  | unresolvableFragment (ref : GoStr)       -- failedToResolveRefFragment
  | unresolvableFragmentPart (ref what : GoStr) -- failedToResolveRefFragmentPart
  | nilDeref                                 -- Go nil-pointer dereference panic
  | outOfFuel                                -- model artifact: recursion budget exhausted
deriving DecidableEq, Repr

/-- `true` iff the error is `unresolvableFragmentPart`. -/
def RErr.isFragPart : RErr → Bool
  | .unresolvableFragmentPart _ _ => true
  | _ => false

/-- The seven component tables.  Each Go map `map[string]*XxxRef` is an
association list from name to Ref-node handle; `none` is a `nil` map. -/
structure Components where
  headers         : Option (List (GoStr × RefId))
  parameters      : Option (List (GoStr × RefId))
  requestBodies   : Option (List (GoStr × RefId))
  responses       : Option (List (GoStr × RefId))
  schemas         : Option (List (GoStr × RefId))
  securitySchemes : Option (List (GoStr × RefId))
  examples        : Option (List (GoStr × RefId))
deriving DecidableEq

/-- Modelled from the spec: an `Operation` (from `openapi3`'s operation type,
whose source file is not part of the excerpt) exposes a parameter list, an
optional request body and a response map, each holding Ref nodes. -/
structure Operation where
  parameters  : Option (List RefId)
  requestBody : Option RefId
  responses   : Option (List (GoStr × RefId))
deriving DecidableEq

/-- Modelled from the spec: a `PathItem` exposes zero or more Operations
(`pathItem.Operations()`, defined outside the excerpt). -/
structure PathItem where
  operations : List Operation
deriving DecidableEq

/-- The document (`Swagger`): a `Components` aggregate plus the paths map.
A `none` entry in `paths` is a `nil` `*PathItem`. -/
structure Doc where
  components : Components
  paths      : Option (List (GoStr × Option PathItem))
deriving DecidableEq

/-- The immutable part of the world: the static fields of every node of the
document graph, plus the loader configuration.

Modelled from the spec where the defining Go source is outside the excerpt:
the value-struct shapes (`Header`/`Parameter` embed one schema ref;
`RequestBody`/`Response` own a content map whose entries optionally embed one
schema ref; `Schema` has `Items`, `Properties`, `AdditionalProperties`) are
exactly the nested-reference sites the loader code dereferences. -/
structure Env where
  /-- `SwaggerLoader.IsExternalRefsAllowed`. -/
  isExternalRefsAllowed : Bool
  /-- The Document Loader collaborator (`LoadSwaggerFromURI`); `none` = load error. -/
  load : GoStr → Option Doc
  /-- The immutable `Ref` field of each Ref node (`component.Ref`). -/
  refStr : RefId → GoStr
  /-- `Header.Schema` field of the header value struct at an index (`none` = nil). -/
  headerSchema : Nat → Option RefId
  /-- `Parameter.Schema` field. -/
  paramSchema : Nat → Option RefId
  /-- `RequestBody.Content`: content-type name to `*MediaType` (`none` entry = nil pointer). -/
  bodyContent : Nat → Option (List (GoStr × Option Nat))
  /-- `Response.Content`. -/
  respContent : Nat → Option (List (GoStr × Option Nat))
  /-- `MediaType.Schema` field. -/
  mediaSchema : Nat → Option RefId
  /-- `Schema.Items` field. -/
  schItems : Nat → Option RefId
  /-- `Schema.Properties` map (`none` = nil map). -/
  schProps : Nat → Option (List (GoStr × RefId))
  /-- `Schema.AdditionalProperties` field. -/
  schAddl : Nat → Option RefId

/-- The mutable state of one resolution pass: the loader's `visited` map, the
`Value` field of every Ref node, and an observation log of Document Loader
invocations. -/
structure State where
  visited : List RefId
  value : RefId → Option Nat
  loaderCalls : List GoStr

/-- Write the `Value` field of one Ref node (`component.Value = …`). -/
def State.setValue (s : State) (c : RefId) (v : Option Nat) : State :=
  { s with value := fun d => if d = c then v else s.value d }

/-- Mark a Ref node visited (`visited[component] = struct{}{}`). -/
def State.mark (s : State) (c : RefId) : State :=
  { s with visited := c :: s.visited }

@[simp] theorem State.setValue_visited (s : State) (c : RefId) (v : Option Nat) :
    (s.setValue c v).visited = s.visited := rfl

@[simp] theorem State.mark_value (s : State) (c : RefId) :
    (s.mark c).value = s.value := rfl

@[simp] theorem State.mark_visited (s : State) (c : RefId) :
    (s.mark c).visited = c :: s.visited := rfl

@[simp] theorem State.setValue_value_same (s : State) (c : RefId) (v : Option Nat) :
    (s.setValue c v).value c = v := by simp [State.setValue]

@[simp] theorem State.setValue_value_other (s : State) (c d : RefId) (v : Option Nat)
    (h : d ≠ c) : (s.setValue c v).value d = s.value d := by simp [State.setValue, h]

/-- The table-prefix constant of `resolveHeaderRef`. -/
def headersPre : GoStr := "#/components/headers/".toList
/-- The table-prefix constant of `resolveParameterRef`. -/
def paramsPre : GoStr := "#/components/parameters/".toList
/-- The table-prefix constant of `resolveRequestBodyRef`. -/
def bodiesPre : GoStr := "#/components/requestBodies/".toList
/-- The table-prefix constant of `resolveResponseRef`. -/
def responsesPre : GoStr := "#/components/responses/".toList
/-- The table-prefix constant of `resolveSchemaRef`. -/
def schemasPre : GoStr := "#/components/schemas/".toList
/-- The table-prefix constant of `resolveSecuritySchemeRef`. -/
def secSchemesPre : GoStr := "#/components/securitySchemes/".toList
/-- The table-prefix constant of `resolveExampleRef`.  Faithful to the source:
it has no trailing slash, unlike the other six. -/
def examplesPre : GoStr := "#/components/examples".toList

/-- The document-locator part of a reference: everything before the first `'#'`
(Go: `parsedURL` with `parsedURL.Fragment = ""`). -/
def locatorPart (ref : GoStr) : GoStr := ref.takeWhile (fun ch => ch ≠ '#')

/-- The fragment part of a reference: everything after the first `'#'`
(Go: `parsedURL.Fragment`; note it does not include the `'#'` itself). -/
def fragmentPart (ref : GoStr) : GoStr := (ref.dropWhile (fun ch => ch ≠ '#')).drop 1

/-- Steps 2–4 of the Component Locator applied to a (possibly fragment-only)
remainder: prefix check, single-segment check, return of the components
aggregate and the bare identifier (lines 182–189 of `swagger_loader.go`). -/
def checkFragment (comps : Components) (ref pre : GoStr) : Except RErr (Components × GoStr) :=
  if pre.isPrefixOf ref then
    if (ref.drop pre.length).contains '/' then
      .error (.unresolvableFragmentPart ref (ref.drop pre.length))
    else .ok (comps, ref.drop pre.length)
  else .error (.unresolvableFragment ref)

/-- `SwaggerLoader.resolveComponent`: the full Component Locator, including the
external-reference branch (lines 165–190).  On the external branch the Go code
reassigns `ref = parsedURL.Fragment` (which has lost its leading `'#'`) and
`swagger` to the newly loaded document before running the fragment checks. -/
def resolveComponent (env : Env) (doc : Doc) (ref pre : GoStr) (s : State) :
    State × Except RErr (Components × GoStr) :=
  if ("#".toList).isPrefixOf ref then
    (s, checkFragment doc.components ref pre)
  else if env.isExternalRefsAllowed = false then
    (s, .error (.disallowedExternalRef ref))
  else
    let s₁ := { s with loaderCalls := s.loaderCalls ++ [locatorPart ref] }
    match env.load (locatorPart ref) with
    | none => (s₁, .error (.loaderFailed ref))
    | some doc₂ => (s₁, checkFragment doc₂.components (fragmentPart ref) pre)

/-- Run `r`; if it succeeded, continue with `k` from the new state.  The shape
of the sequential error-propagating statements of `ResolveRefsIn`. -/
def andThen (r : State × Option RErr) (k : State → State × Option RErr) : State × Option RErr :=
  match r with
  | (s, none) => k s
  | e => e

/-- The ref-string flattening block shared verbatim (up to kind-specific
constants) by all seven per-kind resolvers: if the node carries a non-empty
reference string, locate it with `resolveComponent` against this kind's
`pre`, look the identifier up in this kind's `table` of the returned
components (`errDefs` on a nil table, `errId` on a missing id), recursively
resolve the found target with `recur`, then copy the target's Value
(`component.Value = resolved.Value`). -/
def refFlatten (env : Env) (doc : Doc) (pre : GoStr)
    (table : Components → Option (List (GoStr × RefId)))
    (errDefs : GoStr → RErr) (errId : GoStr → GoStr → RErr)
    (recur : RefId → State → State × Option RErr)
    (c : RefId) (s₁ : State) : State × Option RErr :=
  if env.refStr c = [] then (s₁, none) else
    match resolveComponent env doc (env.refStr c) pre s₁ with
    | (s₂, .error e) => (s₂, some e)
    | (s₂, .ok (comps, id)) =>
      match table comps with
      | none => (s₂, some (errDefs (env.refStr c)))
      | some defs =>
        match defs.lookup id with
        | none => (s₂, some (errId (env.refStr c) id))
        | some resolved =>
          match recur resolved s₂ with
          | (s₃, none) => (s₃.setValue c (s₃.value resolved), none)
          | r => r

/-- The guarded resolver skeleton shared by the Header, Parameter,
RequestBody, Response, Schema and SecurityScheme resolvers: visited guard,
mark, ref-string flattening, then a read of the node's Value followed by
`onNil` when it is nil and by the kind-specific Value descent `descend`
otherwise. -/
def refResolve (env : Env) (doc : Doc) (pre : GoStr)
    (table : Components → Option (List (GoStr × RefId)))
    (errDefs : GoStr → RErr) (errId : GoStr → GoStr → RErr)
    (recur : RefId → State → State × Option RErr)
    (onNil : State → State × Option RErr)
    (descend : Nat → State → State × Option RErr)
    (c : RefId) (s : State) : State × Option RErr :=
  if c ∈ s.visited then (s, none) else
  match refFlatten env doc pre table errDefs errId recur c (s.mark c) with
  | (s₄, some e) => (s₄, some e)
  | (s₄, none) =>
    match s₄.value c with
    | none => onNil s₄
    | some v => descend v s₄

/-- Error-propagating fold: run `f` on each list element in order, aborting at
the first error (the shape of every `for … { if err != nil { return err } }`
loop in `swagger_loader.go`). -/
def foldErr (f : α → State → State × Option RErr) : List α → State → State × Option RErr
  | [], s => (s, none)
  | x :: xs, s =>
    match f x s with
    | (s₁, none) => foldErr f xs s₁
    | r => r

/-- Recursion tasks for the schema resolver: `one c` is the body of
`resolveSchemaRef` on node `c`; `many cs` is its `Properties` loop over the
nodes `cs`. -/
inductive SchemaTask where
  | one : RefId → SchemaTask
  | many : List RefId → SchemaTask

/-- `SwaggerLoader.resolveSchemaRef` (lines 372–425), fuel-indexed.

The body (`one c`) is the guarded skeleton with the `"#/components/schemas/"`
prefix constant and the `Schemas` table; both lookup failures use
`failedToResolveRefFragmentPart`.  Uniquely among the resolvers, the Go code
dereferences `value := component.Value` with no nil check (`value.Items`,
line 404), so `onNil` is the `nilDeref` panic outcome; the Value descent
visits `Items`, every entry of `Properties`, and `AdditionalProperties`. -/
def schemaStep (env : Env) (doc : Doc) : Nat → SchemaTask → State → State × Option RErr
  | 0, _, s => (s, some .outOfFuel)
  | _ + 1, .many [], s => (s, none)
  | fuel + 1, .many (c :: cs), s =>
      match schemaStep env doc fuel (.one c) s with
      | (s₁, none) => schemaStep env doc fuel (.many cs) s₁
      | r => r
  | fuel + 1, .one c, s =>
      refResolve env doc schemasPre (fun comps => comps.schemas)
        (fun r => .unresolvableFragmentPart r "schemas".toList)
        (fun r id => .unresolvableFragmentPart r id)
        (fun resolved s => schemaStep env doc fuel (.one resolved) s)
        (fun s₄ => (s₄, some .nilDeref))   -- Go: panic dereferencing nil `value`
        (fun v s₄ =>
          andThen
            (match env.schItems v with
             | none => (s₄, none)
             | some it => schemaStep env doc fuel (.one it) s₄)
            (fun s₅ =>
              andThen
                (match env.schProps v with
                 | none => (s₅, none)
                 | some props => schemaStep env doc fuel (.many (props.map Prod.snd)) s₅)
                (fun s₆ =>
                  match env.schAddl v with
                  | none => (s₆, none)
                  | some ad => schemaStep env doc fuel (.one ad) s₆)))
        c s

/-- `SwaggerLoader.resolveSchemaRef` proper. -/
def resolveSchemaRef (env : Env) (fuel : Nat) (doc : Doc) (c : RefId) (s : State) :
    State × Option RErr :=
  schemaStep env doc fuel (.one c) s

/-- `SwaggerLoader.resolveHeaderRef` (lines 192–232): the guarded skeleton
with the `"#/components/headers/"` prefix constant and the `Headers` table.
Note: unlike every other kind, both its "table is nil" and "id not found"
failures use `failedToResolveRefFragment`, not `failedToResolveRefFragmentPart`
(lines 209 and 213).  A nil Value returns success; the Value descent resolves
the single embedded schema ref, if any. -/
def resolveHeaderRef (env : Env) : Nat → Doc → RefId → State → State × Option RErr
  | 0, _, _, s => (s, some .outOfFuel)
  | fuel + 1, doc, c, s =>
    refResolve env doc headersPre (fun comps => comps.headers)
      (fun r => .unresolvableFragment r)
      (fun r _ => .unresolvableFragment r)
      (fun resolved s => resolveHeaderRef env fuel doc resolved s)
      (fun s₄ => (s₄, none))
      (fun v s₄ =>
        match env.headerSchema v with
        | none => (s₄, none)
        | some sch => schemaStep env doc fuel (.one sch) s₄)
      c s

/-- `SwaggerLoader.resolveParameterRef` (lines 234–274): the guarded skeleton
with the `"#/components/parameters/"` prefix constant and the `Parameters`
table; the nil-table failure names `"parameters"`, the missing-id failure
names the id.  A nil Value returns success; the Value descent resolves the
single embedded schema ref, if any. -/
def resolveParameterRef (env : Env) : Nat → Doc → RefId → State → State × Option RErr
  | 0, _, _, s => (s, some .outOfFuel)
  | fuel + 1, doc, c, s =>
    refResolve env doc paramsPre (fun comps => comps.parameters)
      (fun r => .unresolvableFragmentPart r "parameters".toList)
      (fun r id => .unresolvableFragmentPart r id)
      (fun resolved s => resolveParameterRef env fuel doc resolved s)
      (fun s₄ => (s₄, none))
      (fun v s₄ =>
        match env.paramSchema v with
        | none => (s₄, none)
        | some sch => schemaStep env doc fuel (.one sch) s₄)
      c s

/-- `SwaggerLoader.resolveRequestBodyRef` (lines 276–320): the guarded
skeleton with the `"#/components/requestBodies/"` prefix constant and the
`RequestBodies` table.  Its content loop dereferences each `*MediaType` entry
with no nil check (`contentType.Schema`, line 311), hence the `nilDeref`
outcome on a nil entry. -/
def resolveRequestBodyRef (env : Env) : Nat → Doc → RefId → State → State × Option RErr
  | 0, _, _, s => (s, some .outOfFuel)
  | fuel + 1, doc, c, s =>
    refResolve env doc bodiesPre (fun comps => comps.requestBodies)
      (fun r => .unresolvableFragmentPart r "requestBodies".toList)
      (fun r id => .unresolvableFragmentPart r id)
      (fun resolved s => resolveRequestBodyRef env fuel doc resolved s)
      (fun s₄ => (s₄, none))
      (fun v s₄ =>
        match env.bodyContent v with
        | none => (s₄, none)
        | some content =>
          foldErr (fun (mt : GoStr × Option Nat) s =>
            match mt.2 with
            | none => (s, some .nilDeref)   -- Go: panic dereferencing nil `contentType`
            | some m =>
              match env.mediaSchema m with
              | none => (s, none)
              | some sch => schemaStep env doc fuel (.one sch) s) content s₄)
      c s

/-- `SwaggerLoader.resolveResponseRef` (lines 322–370): the guarded skeleton
with the `"#/components/responses/"` prefix constant and the `Responses`
table.  Unlike the request-body resolver, its content loop skips nil
`*MediaType` entries (`if contentType == nil { continue }`, line 357); the
post-resolution reassignment `contentType.Schema = schema` is a no-op and is
not modelled. -/
def resolveResponseRef (env : Env) : Nat → Doc → RefId → State → State × Option RErr
  | 0, _, _, s => (s, some .outOfFuel)
  | fuel + 1, doc, c, s =>
    refResolve env doc responsesPre (fun comps => comps.responses)
      (fun r => .unresolvableFragmentPart r "responses".toList)
      (fun r id => .unresolvableFragmentPart r id)
      (fun resolved s => resolveResponseRef env fuel doc resolved s)
      (fun s₄ => (s₄, none))
      (fun v s₄ =>
        match env.respContent v with
        | none => (s₄, none)
        | some content =>
          foldErr (fun (mt : GoStr × Option Nat) s =>
            match mt.2 with
            | none => (s, none)             -- Go: `continue` on nil contentType
            | some m =>
              match env.mediaSchema m with
              | none => (s, none)
              | some sch => schemaStep env doc fuel (.one sch) s) content s₄)
      c s

/-- `SwaggerLoader.resolveSecuritySchemeRef` (lines 427–457): the guarded
skeleton with the `"#/components/securitySchemes/"` prefix constant and the
`SecuritySchemes` table; flattening only, no Value read or descent (both
continuations return success unchanged). -/
def resolveSecuritySchemeRef (env : Env) : Nat → Doc → RefId → State → State × Option RErr
  | 0, _, _, s => (s, some .outOfFuel)
  | fuel + 1, doc, c, s =>
    refResolve env doc secSchemesPre (fun comps => comps.securitySchemes)
      (fun r => .unresolvableFragmentPart r "securitySchemes".toList)
      (fun r id => .unresolvableFragmentPart r id)
      (fun resolved s => resolveSecuritySchemeRef env fuel doc resolved s)
      (fun s₄ => (s₄, none))
      (fun _ s₄ => (s₄, none))
      c s

/-- `SwaggerLoader.resolveExampleRef` (lines 459–481).  Faithful to the
source: it consults the `visited` map on neither entry nor marking — it has
no cycle guard at all — so its body is the bare flattening block, with the
slash-less `"#/components/examples"` prefix constant and the `Examples`
table; no value descent. -/
def resolveExampleRef (env : Env) : Nat → Doc → RefId → State → State × Option RErr
  | 0, _, _, s => (s, some .outOfFuel)
  | fuel + 1, doc, c, s =>
    refFlatten env doc examplesPre (fun comps => comps.examples)
      (fun r => .unresolvableFragmentPart r "examples".toList)
      (fun r id => .unresolvableFragmentPart r id)
      (fun resolved s => resolveExampleRef env fuel doc resolved s)
      c s
/-- The walk of one `Operation` inside `ResolveRefsIn` (lines 136–159):
parameters, then the request body, then responses. -/
def resolveOperation (env : Env) (fuel : Nat) (doc : Doc) (op : Operation) (s : State) :
    State × Option RErr :=
  andThen
    (match op.parameters with
     | none => (s, none)
     | some ps => foldErr (fun p s => resolveParameterRef env fuel doc p s) ps s)
    (fun s =>
      andThen
        (match op.requestBody with
         | none => (s, none)
         | some rb => resolveRequestBodyRef env fuel doc rb s)
        (fun s =>
          match op.responses with
          | none => (s, none)
          | some rs => foldErr (fun (r : GoStr × RefId) s => resolveResponseRef env fuel doc r.2 s) rs s))

/-- `SwaggerLoader.ResolveRefsIn` (lines 77–163): reset the visited map, walk
the component tables Headers, Parameters, RequestBodies, Responses, Schemas,
SecuritySchemes (the Examples table is not walked by the source), then every
operation of every non-nil path item. -/
def resolveRefsIn (env : Env) (fuel : Nat) (doc : Doc) (s₀ : State) : State × Option RErr :=
  let s := { s₀ with visited := [] }
  andThen
    (match doc.components.headers with
     | none => (s, none)
     | some m => foldErr (fun (e : GoStr × RefId) s => resolveHeaderRef env fuel doc e.2 s) m s)
    (fun s => andThen
      (match doc.components.parameters with
       | none => (s, none)
       | some m => foldErr (fun (e : GoStr × RefId) s => resolveParameterRef env fuel doc e.2 s) m s)
      (fun s => andThen
        (match doc.components.requestBodies with
         | none => (s, none)
         | some m => foldErr (fun (e : GoStr × RefId) s => resolveRequestBodyRef env fuel doc e.2 s) m s)
        (fun s => andThen
          (match doc.components.responses with
           | none => (s, none)
           | some m => foldErr (fun (e : GoStr × RefId) s => resolveResponseRef env fuel doc e.2 s) m s)
          (fun s => andThen
            (match doc.components.schemas with
             | none => (s, none)
             | some m => foldErr (fun (e : GoStr × RefId) s => resolveSchemaRef env fuel doc e.2 s) m s)
            (fun s => andThen
              (match doc.components.securitySchemes with
               | none => (s, none)
               | some m => foldErr (fun (e : GoStr × RefId) s => resolveSecuritySchemeRef env fuel doc e.2 s) m s)
              (fun s =>
                match doc.paths with
                | none => (s, none)
                | some paths =>
                  foldErr (fun (p : GoStr × Option PathItem) s =>
                    match p.2 with
                    | none => (s, none)     -- Go: `continue` on nil pathItem
                    | some pi =>
                      foldErr (fun op s => resolveOperation env fuel doc op s) pi.operations s)
                    paths s))))))

/-! ## Pass-state extension lemmas

`Pres s s'` says the pass-state evolved from `s` to `s'` the only way the
engine ever evolves it outside the frame of a node currently being flattened:
the visited set only grows, and the Value of every node that was already
visited is untouched (a resolver writes the Value only of the node it has
itself just marked). -/

/-- Visited set grows; Values of already-visited nodes are unchanged. -/
def Pres (s s' : State) : Prop :=
  (∀ d, d ∈ s.visited → d ∈ s'.visited) ∧ (∀ d, d ∈ s.visited → s'.value d = s.value d)

theorem Pres.refl (s : State) : Pres s s := ⟨fun _ h => h, fun _ _ => rfl⟩

theorem Pres.trans {s₁ s₂ s₃ : State} (h₁ : Pres s₁ s₂) (h₂ : Pres s₂ s₃) : Pres s₁ s₃ :=
  ⟨fun d h => h₂.1 d (h₁.1 d h), fun d h => (h₂.2 d (h₁.1 d h)).trans (h₁.2 d h)⟩

theorem Pres.mark (s : State) (c : RefId) : Pres s (s.mark c) :=
  ⟨fun d h => by simp [State.mark, List.mem_cons, h], fun _ _ => rfl⟩

/-- Like `Pres`, but the Value of the single node `c` (the one the enclosing
frame is flattening) is exempt from the no-change guarantee. -/
def PresX (c : RefId) (s s' : State) : Prop :=
  (∀ d, d ∈ s.visited → d ∈ s'.visited) ∧
  (∀ d, d ∈ s.visited → d ≠ c → s'.value d = s.value d)

theorem Pres.presX {c : RefId} {s s' : State} (h : Pres s s') : PresX c s s' :=
  ⟨h.1, fun d hd _ => h.2 d hd⟩

theorem PresX.trans_pres {c : RefId} {s₁ s₂ s₃ : State}
    (h₁ : PresX c s₁ s₂) (h₂ : Pres s₂ s₃) : PresX c s₁ s₃ :=
  ⟨fun d h => h₂.1 d (h₁.1 d h), fun d h hne => (h₂.2 d (h₁.1 d h)).trans (h₁.2 d h hne)⟩

theorem PresX.setValue {c : RefId} {s s' : State} (h : PresX c s s') (v : Option Nat) :
    PresX c s (s'.setValue c v) := by
  refine ⟨fun d hd => by simpa using h.1 d hd, fun d hd hne => ?_⟩
  rw [State.setValue_value_other _ _ _ _ hne]
  exact h.2 d hd hne

/-- `resolveComponent` touches neither the visited set nor any Value. -/
theorem resolveComponent_state (env : Env) (doc : Doc) (ref pre : GoStr) (s : State) :
    (resolveComponent env doc ref pre s).1.visited = s.visited ∧
    (resolveComponent env doc ref pre s).1.value = s.value := by
  unfold resolveComponent
  split
  · exact ⟨rfl, rfl⟩
  · split
    · exact ⟨rfl, rfl⟩
    · split <;> exact ⟨rfl, rfl⟩

/-- `refFlatten` on node `c` preserves the visited set and every
already-visited node's Value except possibly `c`'s own, whatever the
outcome — provided the recursive resolution of the target does the same
in the `Pres` sense. -/
theorem refFlatten_presX (env : Env) (doc : Doc) (pre : GoStr)
    (table : Components → Option (List (GoStr × RefId)))
    (errDefs : GoStr → RErr) (errId : GoStr → GoStr → RErr)
    (recur : RefId → State → State × Option RErr)
    (hrec : ∀ r s, Pres s (recur r s).1)
    (c : RefId) (s₁ : State) :
    PresX c s₁ (refFlatten env doc pre table errDefs errId recur c s₁).1 := by
  unfold refFlatten
  split
  · exact (Pres.refl s₁).presX
  · rcases hcomp : resolveComponent env doc (env.refStr c) pre s₁ with ⟨s₂, r₂⟩
    have hst := resolveComponent_state env doc (env.refStr c) pre s₁
    rw [hcomp] at hst
    have hps : Pres s₁ s₂ := ⟨fun d hd => hst.1 ▸ hd, fun d _ => by rw [hst.2]⟩
    rcases r₂ with e | ⟨comps, id⟩
    · exact hps.presX
    · simp only
      split
      · exact hps.presX
      · split
        · exact hps.presX
        · rename_i defs _ resolved _
          rcases hrc : recur resolved s₂ with ⟨s₃, r₃⟩
          have hp₃ : Pres s₂ s₃ := by have := hrec resolved s₂; rwa [hrc] at this
          rcases r₃ with _ | e
          · exact ((hps.trans hp₃).presX).setValue _
          · exact (hps.trans hp₃).presX

/-- `refResolve` preserves the pass state in the `Pres` sense, whatever the
outcome, provided its continuations do. -/
theorem refResolve_pres (env : Env) (doc : Doc) (pre : GoStr)
    (table : Components → Option (List (GoStr × RefId)))
    (errDefs : GoStr → RErr) (errId : GoStr → GoStr → RErr)
    (recur : RefId → State → State × Option RErr)
    (onNil : State → State × Option RErr)
    (descend : Nat → State → State × Option RErr)
    (hrec : ∀ r s, Pres s (recur r s).1)
    (honNil : ∀ s, Pres s (onNil s).1)
    (hdesc : ∀ v s, Pres s (descend v s).1)
    (c : RefId) (s : State) :
    Pres s (refResolve env doc pre table errDefs errId recur onNil descend c s).1 := by
  unfold refResolve
  split
  · exact Pres.refl s
  · rename_i hc
    rcases hfl : refFlatten env doc pre table errDefs errId recur c (s.mark c) with ⟨s₄, r₄⟩
    have hx : PresX c (s.mark c) s₄ := by
      have := refFlatten_presX env doc pre table errDefs errId recur hrec c (s.mark c)
      rwa [hfl] at this
    have hsx : Pres s s₄ := by
      refine ⟨fun d hd => hx.1 d (by simp [State.mark, hd]), fun d hd => ?_⟩
      have hne : d ≠ c := fun h => hc (h ▸ hd)
      exact hx.2 d (by simp [State.mark, hd]) hne
    rcases r₄ with _ | e
    · simp only
      split
      · exact hsx.trans (honNil s₄)
      · exact hsx.trans (hdesc _ s₄)
    · exact hsx

/-- `foldErr` preserves the pass state provided each element's action does. -/
theorem foldErr_pres {α : Type} (f : α → State → State × Option RErr)
    (hf : ∀ x s, Pres s (f x s).1) :
    ∀ (l : List α) (s : State), Pres s (foldErr f l s).1 := by
  intro l
  induction l with
  | nil => intro s; exact Pres.refl s
  | cons x xs ih =>
    intro s
    simp only [foldErr]
    rcases hx : f x s with ⟨s₁, r₁⟩
    have hp : Pres s s₁ := by have := hf x s; rwa [hx] at this
    rcases r₁ with _ | e
    · exact hp.trans (ih s₁)
    · exact hp

/-- `andThen` preserves the pass state provided both parts do. -/
theorem andThen_pres {s : State} {r : State × Option RErr} {k : State → State × Option RErr}
    (h₁ : Pres s r.1) (h₂ : ∀ s', Pres s' (k s').1) : Pres s (andThen r k).1 := by
  rcases r with ⟨s₁, r₁⟩
  rcases r₁ with _ | e
  · exact h₁.trans (h₂ s₁)
  · exact h₁

/-- The schema resolver preserves the pass state, whatever the outcome. -/
theorem schemaStep_pres (env : Env) (doc : Doc) :
    ∀ (fuel : Nat) (t : SchemaTask) (s : State), Pres s (schemaStep env doc fuel t s).1 := by
  intro fuel
  induction fuel with
  | zero => intro t s; exact Pres.refl s
  | succ fuel ih =>
    intro t s
    match t with
    | .many [] => exact Pres.refl s
    | .many (c :: cs) =>
      simp only [schemaStep]
      rcases hx : schemaStep env doc fuel (.one c) s with ⟨s₁, r₁⟩
      have hp : Pres s s₁ := by have := ih (.one c) s; rwa [hx] at this
      rcases r₁ with _ | e
      · exact hp.trans (ih (.many cs) s₁)
      · exact hp
    | .one c =>
      simp only [schemaStep]
      refine refResolve_pres _ _ _ _ _ _ _ _ _
        (fun r s => ih (.one r) s) (fun s => Pres.refl s) (fun v s₄ => ?_) c s
      refine andThen_pres ?_ (fun s₅ => ?_)
      · rcases env.schItems v with _ | it
        · exact Pres.refl s₄
        · exact ih (.one it) s₄
      · refine andThen_pres ?_ (fun s₆ => ?_)
        · rcases env.schProps v with _ | props
          · exact Pres.refl s₅
          · exact ih (.many (props.map Prod.snd)) s₅
        · rcases env.schAddl v with _ | ad
          · exact Pres.refl s₆
          · exact ih (.one ad) s₆

/-- The Header resolver preserves the pass state, whatever the outcome. -/
theorem resolveHeaderRef_pres (env : Env) :
    ∀ (fuel : Nat) (doc : Doc) (c : RefId) (s : State),
      Pres s (resolveHeaderRef env fuel doc c s).1 := by
  intro fuel
  induction fuel with
  | zero => intro doc c s; exact Pres.refl s
  | succ fuel ih =>
    intro doc c s
    refine refResolve_pres _ _ _ _ _ _ _ _ _
      (fun r s => ih doc r s) (fun s => Pres.refl s) (fun v s₄ => ?_) c s
    rcases env.headerSchema v with _ | sch
    · exact Pres.refl s₄
    · exact schemaStep_pres env doc fuel (.one sch) s₄

/-- The Parameter resolver preserves the pass state, whatever the outcome. -/
theorem resolveParameterRef_pres (env : Env) :
    ∀ (fuel : Nat) (doc : Doc) (c : RefId) (s : State),
      Pres s (resolveParameterRef env fuel doc c s).1 := by
  intro fuel
  induction fuel with
  | zero => intro doc c s; exact Pres.refl s
  | succ fuel ih =>
    intro doc c s
    refine refResolve_pres _ _ _ _ _ _ _ _ _
      (fun r s => ih doc r s) (fun s => Pres.refl s) (fun v s₄ => ?_) c s
    rcases env.paramSchema v with _ | sch
    · exact Pres.refl s₄
    · exact schemaStep_pres env doc fuel (.one sch) s₄

/-- The RequestBody resolver preserves the pass state, whatever the outcome. -/
theorem resolveRequestBodyRef_pres (env : Env) :
    ∀ (fuel : Nat) (doc : Doc) (c : RefId) (s : State),
      Pres s (resolveRequestBodyRef env fuel doc c s).1 := by
  intro fuel
  induction fuel with
  | zero => intro doc c s; exact Pres.refl s
  | succ fuel ih =>
    intro doc c s
    refine refResolve_pres _ _ _ _ _ _ _ _ _
      (fun r s => ih doc r s) (fun s => Pres.refl s) (fun v s₄ => ?_) c s
    rcases env.bodyContent v with _ | content
    · exact Pres.refl s₄
    · refine foldErr_pres _ (fun mt s => ?_) content s₄
      obtain ⟨nm, o⟩ := mt
      rcases o with _ | m
      · exact Pres.refl s
      · dsimp only
        rcases env.mediaSchema m with _ | sch
        · exact Pres.refl s
        · exact schemaStep_pres env doc fuel (.one sch) s

/-- The Response resolver preserves the pass state, whatever the outcome. -/
theorem resolveResponseRef_pres (env : Env) :
    ∀ (fuel : Nat) (doc : Doc) (c : RefId) (s : State),
      Pres s (resolveResponseRef env fuel doc c s).1 := by
  intro fuel
  induction fuel with
  | zero => intro doc c s; exact Pres.refl s
  | succ fuel ih =>
    intro doc c s
    refine refResolve_pres _ _ _ _ _ _ _ _ _
      (fun r s => ih doc r s) (fun s => Pres.refl s) (fun v s₄ => ?_) c s
    rcases env.respContent v with _ | content
    · exact Pres.refl s₄
    · refine foldErr_pres _ (fun mt s => ?_) content s₄
      obtain ⟨nm, o⟩ := mt
      rcases o with _ | m
      · exact Pres.refl s
      · dsimp only
        rcases env.mediaSchema m with _ | sch
        · exact Pres.refl s
        · exact schemaStep_pres env doc fuel (.one sch) s

/-- The SecurityScheme resolver preserves the pass state, whatever the outcome. -/
theorem resolveSecuritySchemeRef_pres (env : Env) :
    ∀ (fuel : Nat) (doc : Doc) (c : RefId) (s : State),
      Pres s (resolveSecuritySchemeRef env fuel doc c s).1 := by
  intro fuel
  induction fuel with
  | zero => intro doc c s; exact Pres.refl s
  | succ fuel ih =>
    intro doc c s
    exact refResolve_pres _ _ _ _ _ _ _ _ _
      (fun r s => ih doc r s) (fun s => Pres.refl s) (fun _ s => Pres.refl s) c s

/-- The operation walk preserves the pass state, whatever the outcome. -/
theorem resolveOperation_pres (env : Env) (fuel : Nat) (doc : Doc) (op : Operation) (s : State) :
    Pres s (resolveOperation env fuel doc op s).1 := by
  unfold resolveOperation
  refine andThen_pres ?_ (fun s' => ?_)
  · rcases op.parameters with _ | ps
    · exact Pres.refl s
    · exact foldErr_pres _ (fun p s => resolveParameterRef_pres env fuel doc p s) ps s
  · refine andThen_pres ?_ (fun s'' => ?_)
    · rcases op.requestBody with _ | rb
      · exact Pres.refl s'
      · exact resolveRequestBodyRef_pres env fuel doc rb s'
    · rcases op.responses with _ | rs
      · exact Pres.refl s''
      · exact foldErr_pres _ (fun r s => resolveResponseRef_pres env fuel doc r.2 s) rs s''

/-- The full top-level walk preserves the pass state with respect to the
reset state (fresh empty visited set), whatever the outcome. -/
theorem resolveRefsIn_pres (env : Env) (fuel : Nat) (doc : Doc) (s₀ : State) :
    Pres { s₀ with visited := [] } (resolveRefsIn env fuel doc s₀).1 := by
  unfold resolveRefsIn
  refine andThen_pres ?_ (fun s₁ => ?_)
  · rcases doc.components.headers with _ | m
    · exact Pres.refl _
    · exact foldErr_pres _ (fun e s => resolveHeaderRef_pres env fuel doc e.2 s) m _
  · refine andThen_pres ?_ (fun s₂ => ?_)
    · rcases doc.components.parameters with _ | m
      · exact Pres.refl _
      · exact foldErr_pres _ (fun e s => resolveParameterRef_pres env fuel doc e.2 s) m _
    · refine andThen_pres ?_ (fun s₃ => ?_)
      · rcases doc.components.requestBodies with _ | m
        · exact Pres.refl _
        · exact foldErr_pres _ (fun e s => resolveRequestBodyRef_pres env fuel doc e.2 s) m _
      · refine andThen_pres ?_ (fun s₄ => ?_)
        · rcases doc.components.responses with _ | m
          · exact Pres.refl _
          · exact foldErr_pres _ (fun e s => resolveResponseRef_pres env fuel doc e.2 s) m _
        · refine andThen_pres ?_ (fun s₅ => ?_)
          · rcases doc.components.schemas with _ | m
            · exact Pres.refl _
            · exact foldErr_pres _ (fun e s => schemaStep_pres env doc fuel (.one e.2) s) m _
          · refine andThen_pres ?_ (fun s₆ => ?_)
            · rcases doc.components.securitySchemes with _ | m
              · exact Pres.refl _
              · exact foldErr_pres _ (fun e s => resolveSecuritySchemeRef_pres env fuel doc e.2 s) m _
            · rcases doc.paths with _ | paths
              · exact Pres.refl _
              · refine foldErr_pres _ (fun p s => ?_) paths _
                rcases p.2 with _ | pi
                · exact Pres.refl s
                · exact foldErr_pres _ (fun op s => resolveOperation_pres env fuel doc op s)
                    pi.operations s

/-! ## Visited-membership lemmas -/

/-- `refResolve` leaves its node in the visited set, whatever the outcome. -/
theorem refResolve_mem (env : Env) (doc : Doc) (pre : GoStr)
    (table : Components → Option (List (GoStr × RefId)))
    (errDefs : GoStr → RErr) (errId : GoStr → GoStr → RErr)
    (recur : RefId → State → State × Option RErr)
    (onNil : State → State × Option RErr)
    (descend : Nat → State → State × Option RErr)
    (hrec : ∀ r s, Pres s (recur r s).1)
    (honNil : ∀ s, Pres s (onNil s).1)
    (hdesc : ∀ v s, Pres s (descend v s).1)
    (c : RefId) (s : State) :
    c ∈ (refResolve env doc pre table errDefs errId recur onNil descend c s).1.visited := by
  unfold refResolve
  split
  · assumption
  · rcases hfl : refFlatten env doc pre table errDefs errId recur c (s.mark c) with ⟨s₄, r₄⟩
    have hx : PresX c (s.mark c) s₄ := by
      have := refFlatten_presX env doc pre table errDefs errId recur hrec c (s.mark c)
      rwa [hfl] at this
    have hc₄ : c ∈ s₄.visited := hx.1 c (by simp [State.mark])
    rcases r₄ with _ | e
    · simp only
      split
      · exact (honNil s₄).1 c hc₄
      · exact (hdesc _ s₄).1 c hc₄
    · exact hc₄

/-- On success the Header resolver leaves its node visited. -/
theorem resolveHeaderRef_mem (env : Env) (fuel : Nat) (doc : Doc) (c : RefId) (s : State)
    (h : (resolveHeaderRef env fuel doc c s).2 = none) :
    c ∈ (resolveHeaderRef env fuel doc c s).1.visited := by
  cases fuel with
  | zero => simp [resolveHeaderRef] at h
  | succ fuel =>
    refine refResolve_mem _ _ _ _ _ _ _ _ _
      (fun r s => resolveHeaderRef_pres env fuel doc r s) (fun s => Pres.refl s)
      (fun v s₄ => ?_) c s
    rcases env.headerSchema v with _ | sch
    · exact Pres.refl s₄
    · exact schemaStep_pres env doc fuel (.one sch) s₄

/-- On success the Parameter resolver leaves its node visited. -/
theorem resolveParameterRef_mem (env : Env) (fuel : Nat) (doc : Doc) (c : RefId) (s : State)
    (h : (resolveParameterRef env fuel doc c s).2 = none) :
    c ∈ (resolveParameterRef env fuel doc c s).1.visited := by
  cases fuel with
  | zero => simp [resolveParameterRef] at h
  | succ fuel =>
    refine refResolve_mem _ _ _ _ _ _ _ _ _
      (fun r s => resolveParameterRef_pres env fuel doc r s) (fun s => Pres.refl s)
      (fun v s₄ => ?_) c s
    rcases env.paramSchema v with _ | sch
    · exact Pres.refl s₄
    · exact schemaStep_pres env doc fuel (.one sch) s₄

/-- On success the RequestBody resolver leaves its node visited. -/
theorem resolveRequestBodyRef_mem (env : Env) (fuel : Nat) (doc : Doc) (c : RefId) (s : State)
    (h : (resolveRequestBodyRef env fuel doc c s).2 = none) :
    c ∈ (resolveRequestBodyRef env fuel doc c s).1.visited := by
  cases fuel with
  | zero => simp [resolveRequestBodyRef] at h
  | succ fuel =>
    refine refResolve_mem _ _ _ _ _ _ _ _ _
      (fun r s => resolveRequestBodyRef_pres env fuel doc r s) (fun s => Pres.refl s)
      (fun v s₄ => ?_) c s
    rcases env.bodyContent v with _ | content
    · exact Pres.refl s₄
    · refine foldErr_pres _ (fun mt s => ?_) content s₄
      obtain ⟨nm, o⟩ := mt
      rcases o with _ | m
      · exact Pres.refl s
      · dsimp only
        rcases env.mediaSchema m with _ | sch
        · exact Pres.refl s
        · exact schemaStep_pres env doc fuel (.one sch) s

/-- On success the Response resolver leaves its node visited. -/
theorem resolveResponseRef_mem (env : Env) (fuel : Nat) (doc : Doc) (c : RefId) (s : State)
    (h : (resolveResponseRef env fuel doc c s).2 = none) :
    c ∈ (resolveResponseRef env fuel doc c s).1.visited := by
  cases fuel with
  | zero => simp [resolveResponseRef] at h
  | succ fuel =>
    refine refResolve_mem _ _ _ _ _ _ _ _ _
      (fun r s => resolveResponseRef_pres env fuel doc r s) (fun s => Pres.refl s)
      (fun v s₄ => ?_) c s
    rcases env.respContent v with _ | content
    · exact Pres.refl s₄
    · refine foldErr_pres _ (fun mt s => ?_) content s₄
      obtain ⟨nm, o⟩ := mt
      rcases o with _ | m
      · exact Pres.refl s
      · dsimp only
        rcases env.mediaSchema m with _ | sch
        · exact Pres.refl s
        · exact schemaStep_pres env doc fuel (.one sch) s

/-- On success the Schema resolver leaves its node visited. -/
theorem schemaStep_one_mem (env : Env) (fuel : Nat) (doc : Doc) (c : RefId) (s : State)
    (h : (schemaStep env doc fuel (.one c) s).2 = none) :
    c ∈ (schemaStep env doc fuel (.one c) s).1.visited := by
  cases fuel with
  | zero => simp [schemaStep] at h
  | succ fuel =>
    refine refResolve_mem _ _ _ _ _ _ _ _ _
      (fun r s => schemaStep_pres env doc fuel (.one r) s) (fun s => Pres.refl s)
      (fun v s₄ => ?_) c s
    refine andThen_pres ?_ (fun s₅ => ?_)
    · rcases env.schItems v with _ | it
      · exact Pres.refl s₄
      · exact schemaStep_pres env doc fuel (.one it) s₄
    · refine andThen_pres ?_ (fun s₆ => ?_)
      · rcases env.schProps v with _ | props
        · exact Pres.refl s₅
        · exact schemaStep_pres env doc fuel (.many (props.map Prod.snd)) s₅
      · rcases env.schAddl v with _ | ad
        · exact Pres.refl s₆
        · exact schemaStep_pres env doc fuel (.one ad) s₆

/-- On success the SecurityScheme resolver leaves its node visited. -/
theorem resolveSecuritySchemeRef_mem (env : Env) (fuel : Nat) (doc : Doc) (c : RefId) (s : State)
    (h : (resolveSecuritySchemeRef env fuel doc c s).2 = none) :
    c ∈ (resolveSecuritySchemeRef env fuel doc c s).1.visited := by
  cases fuel with
  | zero => simp [resolveSecuritySchemeRef] at h
  | succ fuel =>
    exact refResolve_mem _ _ _ _ _ _ _ _ _
      (fun r s => resolveSecuritySchemeRef_pres env fuel doc r s) (fun s => Pres.refl s)
      (fun _ s => Pres.refl s) c s

/-- On success, a `foldErr` whose element action preserves the pass state and
leaves `g x` visited on success leaves `g x` visited for every element. -/
theorem foldErr_mem {α : Type} (f : α → State → State × Option RErr) (g : α → RefId)
    (hf_pres : ∀ x s, Pres s (f x s).1)
    (hf_mem : ∀ x s, (f x s).2 = none → g x ∈ (f x s).1.visited) :
    ∀ (l : List α) (s : State), (foldErr f l s).2 = none →
      ∀ x ∈ l, g x ∈ (foldErr f l s).1.visited := by
  intro l
  induction l with
  | nil => intro s _ x hx; cases hx
  | cons y ys ih =>
    intro s hsucc x hx
    simp only [foldErr] at hsucc ⊢
    rcases hy : f y s with ⟨s₁, r₁⟩
    rw [hy] at hsucc
    rcases r₁ with _ | e
    · dsimp only at hsucc ⊢
      rcases List.mem_cons.mp hx with rfl | hx'
      · have hm : g x ∈ s₁.visited := by
          have := hf_mem x s; rw [hy] at this; exact this rfl
        exact (foldErr_pres f hf_pres ys s₁).1 _ hm
      · exact ih s₁ hsucc x hx'
    · dsimp only at hsucc; exact absurd hsucc (by simp)

/-! ## The pure locator mirror, per-kind data, and well-formedness -/

/-- The table-prefix constant each kind's resolver passes to `resolveComponent`. -/
def kindPre : Kind → GoStr
  | .header => headersPre
  | .param => paramsPre
  | .reqBody => bodiesPre
  | .resp => responsesPre
  | .schema => schemasPre
  | .secScheme => secSchemesPre
  | .example => examplesPre

/-- The component table each kind's resolver looks its identifier up in. -/
def kindTable : Kind → Components → Option (List (GoStr × RefId))
  | .header => fun comps => comps.headers
  | .param => fun comps => comps.parameters
  | .reqBody => fun comps => comps.requestBodies
  | .resp => fun comps => comps.responses
  | .schema => fun comps => comps.schemas
  | .secScheme => fun comps => comps.securitySchemes
  | .example => fun comps => comps.examples

/-- Pure mirror of the Component Locator (`resolveComponent` without the
state threading): the components aggregate and bare identifier a reference
string denotes, or `none` where the locator errors. -/
def locateOk (env : Env) (doc : Doc) (ref pre : GoStr) : Option (Components × GoStr) :=
  if ("#".toList).isPrefixOf ref then (checkFragment doc.components ref pre).toOption
  else if env.isExternalRefsAllowed = false then none
  else
    match env.load (locatorPart ref) with
    | none => none
    | some doc₂ => (checkFragment doc₂.components (fragmentPart ref) pre).toOption

/-- Following one hop of a node's reference string, exactly as the node's
kind-specific resolver does: locate, then look the identifier up in this
kind's table. -/
def targetOf (env : Env) (doc : Doc) (c : RefId) : Option RefId :=
  match locateOk env doc (env.refStr c) (kindPre c.kind) with
  | none => none
  | some (comps, id) =>
    match kindTable c.kind comps with
    | none => none
    | some defs => defs.lookup id

/-- The components aggregates `resolveComponent` can hand back: the current
document's, or one of a document the loader returned. -/
def CompsFrom (env : Env) (doc : Doc) (comps : Components) : Prop :=
  comps = doc.components ∨ ∃ l d₂, env.load l = some d₂ ∧ comps = d₂.components

/-- On success, `checkFragment` returns the aggregate it was given and the
dropped identifier. -/
theorem checkFragment_ok {comps₀ comps : Components} {ref pre id : GoStr}
    (h : checkFragment comps₀ ref pre = .ok (comps, id)) :
    comps = comps₀ ∧ id = ref.drop pre.length := by
  unfold checkFragment at h
  split at h
  · split at h
    · cases h
    · simp only [Except.ok.injEq, Prod.mk.injEq] at h
      exact ⟨h.1.symm, h.2.symm⟩
  · cases h

/-- On success, `resolveComponent` agrees with the pure mirror `locateOk`,
and the aggregate it returns is the document's or a loaded one's. -/
theorem resolveComponent_ok (env : Env) (doc : Doc) (ref pre : GoStr) (s : State)
    {s' : State} {comps : Components} {id : GoStr}
    (h : resolveComponent env doc ref pre s = (s', .ok (comps, id))) :
    locateOk env doc ref pre = some (comps, id) ∧ CompsFrom env doc comps := by
  unfold resolveComponent at h
  unfold locateOk
  split at h
  · rename_i hloc
    rw [if_pos hloc]
    have h₂ : checkFragment doc.components ref pre = .ok (comps, id) := congrArg Prod.snd h
    rw [h₂]
    exact ⟨rfl, Or.inl (checkFragment_ok h₂).1⟩
  · rename_i hloc
    rw [if_neg hloc]
    split at h
    · cases congrArg Prod.snd h
    · rename_i hext
      rw [if_neg hext]
      rcases hld : env.load (locatorPart ref) with _ | doc₂ <;> rw [hld] at h
      · cases congrArg Prod.snd h
      · have h₂ : checkFragment doc₂.components (fragmentPart ref) pre = .ok (comps, id) :=
          congrArg Prod.snd h
        dsimp only
        rw [h₂]
        exact ⟨rfl, Or.inr ⟨_, _, hld, (checkFragment_ok h₂).1⟩⟩

/-- Kind-correctness of one components aggregate: every table entry's handle
carries the matching kind tag (the Go type system enforces this; the arena
model states it as well-formedness). -/
def CompsOK (comps : Components) : Prop :=
  (∀ l, comps.headers = some l → ∀ p ∈ l, (p : GoStr × RefId).2.kind = .header) ∧
  (∀ l, comps.parameters = some l → ∀ p ∈ l, (p : GoStr × RefId).2.kind = .param) ∧
  (∀ l, comps.requestBodies = some l → ∀ p ∈ l, (p : GoStr × RefId).2.kind = .reqBody) ∧
  (∀ l, comps.responses = some l → ∀ p ∈ l, (p : GoStr × RefId).2.kind = .resp) ∧
  (∀ l, comps.schemas = some l → ∀ p ∈ l, (p : GoStr × RefId).2.kind = .schema) ∧
  (∀ l, comps.securitySchemes = some l → ∀ p ∈ l, (p : GoStr × RefId).2.kind = .secScheme) ∧
  (∀ l, comps.examples = some l → ∀ p ∈ l, (p : GoStr × RefId).2.kind = .example)

/-- Kind-correctness of one operation's reference sites. -/
def OpOK (op : Operation) : Prop :=
  (∀ l, op.parameters = some l → ∀ p ∈ l, (p : RefId).kind = .param) ∧
  (∀ rb, op.requestBody = some rb → rb.kind = .reqBody) ∧
  (∀ l, op.responses = some l → ∀ p ∈ l, (p : GoStr × RefId).2.kind = .resp)

/-- Kind-correctness of a document: its components and all its operations. -/
def DocOK (doc : Doc) : Prop :=
  CompsOK doc.components ∧
  (∀ l, doc.paths = some l → ∀ p ∈ l, ∀ pi, (p : GoStr × Option PathItem).2 = some pi →
    ∀ op ∈ pi.operations, OpOK op)

/-- Kind-correctness of the value arenas: every nested schema-reference site
holds a schema-kind handle. -/
def EnvOK (env : Env) : Prop :=
  (∀ v r, env.headerSchema v = some r → r.kind = .schema) ∧
  (∀ v r, env.paramSchema v = some r → r.kind = .schema) ∧
  (∀ v r, env.mediaSchema v = some r → r.kind = .schema) ∧
  (∀ v r, env.schItems v = some r → r.kind = .schema) ∧
  (∀ v l, env.schProps v = some l → ∀ p ∈ l, (p : GoStr × RefId).2.kind = .schema) ∧
  (∀ v r, env.schAddl v = some r → r.kind = .schema)

/-- Well-formed world: kind-correct arenas, a kind-correct document, and a
loader that only returns kind-correct components. -/
def WF (env : Env) (doc : Doc) : Prop :=
  EnvOK env ∧ DocOK doc ∧ (∀ l d₂, env.load l = some d₂ → CompsOK d₂.components)

/-- A successful association-list lookup finds a stored pair. -/
theorem lookup_mem {α β : Type} [BEq α] {l : List (α × β)} {k : α} {b : β}
    (h : l.lookup k = some b) : ∃ a, (a, b) ∈ l := by
  induction l with
  | nil => cases h
  | cons p ps ih =>
    rcases p with ⟨a, b'⟩
    simp only [List.lookup] at h
    cases hk : k == a with
    | false =>
      rw [hk] at h
      obtain ⟨a', ha⟩ := ih h
      exact ⟨a', List.mem_cons_of_mem _ ha⟩
    | true =>
      rw [hk] at h
      simp only [Option.some.injEq] at h
      exact ⟨a, h ▸ List.mem_cons_self _ _⟩

/-! ## The single-hop flattening invariant -/

/-- Single-hop flattening invariant for a node `d`: if `d` carries a
reference string, that string denotes a target node `t` of `d`'s kind-table,
`t` has been visited, and — when `t` is a concrete definition (no reference
string of its own, so its Value is settled for the pass) — `d`'s Value is
exactly `t`'s Value. -/
def HopInv (env : Env) (doc : Doc) (s : State) (d : RefId) : Prop :=
  env.refStr d ≠ [] →
    ∃ t, targetOf env doc d = some t ∧ t ∈ s.visited ∧
      (env.refStr t = [] → s.value d = s.value t)

theorem HopInv.hop_mono {env : Env} {doc : Doc} {s s' : State} {d : RefId}
    (h : HopInv env doc s d) (hd : d ∈ s.visited) (hp : Pres s s') :
    HopInv env doc s' d := by
  intro hne
  obtain ⟨t, ht, htm, hv⟩ := h hne
  exact ⟨t, ht, hp.1 t htm, fun hte => by rw [hp.2 d hd, hp.2 t htm]; exact hv hte⟩

theorem HopInv.hop_setValue {env : Env} {doc : Doc} {s : State} {d c : RefId} {v : Option Nat}
    (h : HopInv env doc s d) (hdc : d ≠ c) (hcref : env.refStr c ≠ []) :
    HopInv env doc (s.setValue c v) d := by
  intro hne
  obtain ⟨t, ht, htm, hv⟩ := h hne
  refine ⟨t, ht, by simpa using htm, fun hte => ?_⟩
  have htc : t ≠ c := fun hh => hcref (hh ▸ hte)
  rw [State.setValue_value_other _ _ _ _ hdc, State.setValue_value_other _ _ _ _ htc]
  exact hv hte

/-- Every node freshly visited between `s` and `s'` satisfies the single-hop
flattening invariant at `s'`. -/
def NewOK (env : Env) (doc : Doc) (s s' : State) : Prop :=
  ∀ d, d ∈ s'.visited → d ∉ s.visited → HopInv env doc s' d

theorem NewOK.newOK_refl (env : Env) (doc : Doc) (s : State) : NewOK env doc s s :=
  fun _ hd hnd => absurd hd hnd

theorem NewOK.newOK_trans {env : Env} {doc : Doc} {s s₁ s₂ : State}
    (h₁ : NewOK env doc s s₁) (h₂ : NewOK env doc s₁ s₂) (hp : Pres s₁ s₂) :
    NewOK env doc s s₂ := by
  intro d hd hnd
  by_cases hd₁ : d ∈ s₁.visited
  · exact (h₁ d hd₁ hnd).hop_mono hd₁ hp
  · exact h₂ d hd hd₁

theorem andThen_newOK {env : Env} {doc : Doc} {s : State} {r : State × Option RErr}
    {k : State → State × Option RErr}
    (hr_new : r.2 = none → NewOK env doc s r.1)
    (hk_pres : ∀ s', Pres s' (k s').1)
    (hk_new : ∀ s', (k s').2 = none → NewOK env doc s' (k s').1)
    (hsucc : (andThen r k).2 = none) : NewOK env doc s (andThen r k).1 := by
  rcases r with ⟨s₁, r₁⟩
  rcases r₁ with _ | e
  · exact (hr_new rfl).newOK_trans (hk_new s₁ hsucc) (hk_pres s₁)
  · exact absurd hsucc (by simp [andThen])

/-- `foldErr` preserves the pass state provided each listed element's action
does. -/
theorem foldErr_pres_mem {α : Type} (f : α → State → State × Option RErr) :
    ∀ (l : List α), (∀ x ∈ l, ∀ s, Pres s (f x s).1) →
      ∀ (s : State), Pres s (foldErr f l s).1 := by
  intro l
  induction l with
  | nil => intro _ s; exact Pres.refl s
  | cons x xs ih =>
    intro hf s
    simp only [foldErr]
    rcases hx : f x s with ⟨s₁, r₁⟩
    have hp : Pres s s₁ := by
      have := hf x (List.mem_cons_self _ _) s; rwa [hx] at this
    rcases r₁ with _ | e
    · exact hp.trans (ih (fun z hz => hf z (List.mem_cons_of_mem _ hz)) s₁)
    · exact hp

theorem foldErr_newOK {α : Type} {env : Env} {doc : Doc}
    (f : α → State → State × Option RErr) :
    ∀ (l : List α) (s : State),
      (∀ x ∈ l, ∀ s, Pres s (f x s).1) →
      (∀ x ∈ l, ∀ s, (f x s).2 = none → NewOK env doc s (f x s).1) →
      (foldErr f l s).2 = none → NewOK env doc s (foldErr f l s).1 := by
  intro l
  induction l with
  | nil => intro s _ _ _; exact NewOK.newOK_refl env doc s
  | cons y ys ih =>
    intro s hp hn hsucc
    simp only [foldErr] at hsucc ⊢
    rcases hy : f y s with ⟨s₁, r₁⟩
    rw [hy] at hsucc
    rcases r₁ with _ | e
    · dsimp only at hsucc ⊢
      have h₁ : NewOK env doc s s₁ := by
        have := hn y (List.mem_cons_self _ _) s
        rw [hy] at this
        exact this rfl
      have h₂ := ih s₁ (fun x hx => hp x (List.mem_cons_of_mem _ hx))
        (fun x hx => hn x (List.mem_cons_of_mem _ hx)) hsucc
      exact h₁.newOK_trans h₂ (foldErr_pres_mem f ys (fun x hx => hp x (List.mem_cons_of_mem _ hx)) s₁)
    · dsimp only at hsucc; exact absurd hsucc (by simp)

/-- Core correctness of the guarded resolver skeleton: on success, every node
it freshly visits satisfies the single-hop flattening invariant — in
particular the resolved node itself ends with its target's Value copied in
(when that target is a settled concrete definition). -/
theorem refResolve_newOK (env : Env) (doc : Doc) (pre : GoStr)
    (table : Components → Option (List (GoStr × RefId)))
    (errDefs : GoStr → RErr) (errId : GoStr → GoStr → RErr)
    (recur : RefId → State → State × Option RErr)
    (onNil : State → State × Option RErr)
    (descend : Nat → State → State × Option RErr)
    (c : RefId)
    (hpre : pre = kindPre c.kind)
    (htable : ∀ comps, table comps = kindTable c.kind comps)
    (hkind : ∀ comps, CompsFrom env doc comps → ∀ defs id r,
        table comps = some defs → defs.lookup id = some r → r.kind = c.kind)
    (hrec_pres : ∀ r s, Pres s (recur r s).1)
    (hrec_mem : ∀ r s, (recur r s).2 = none → r ∈ (recur r s).1.visited)
    (hrec_new : ∀ r s, r.kind = c.kind → (recur r s).2 = none → NewOK env doc s (recur r s).1)
    (honNil_pres : ∀ s, Pres s (onNil s).1)
    (honNil_new : ∀ s, (onNil s).2 = none → NewOK env doc s (onNil s).1)
    (hdesc_pres : ∀ v s, Pres s (descend v s).1)
    (hdesc_new : ∀ v s, (descend v s).2 = none → NewOK env doc s (descend v s).1)
    (s : State)
    (hsucc : (refResolve env doc pre table errDefs errId recur onNil descend c s).2 = none) :
    NewOK env doc s (refResolve env doc pre table errDefs errId recur onNil descend c s).1 := by
  unfold refResolve at hsucc ⊢
  by_cases hc : c ∈ s.visited
  · rw [if_pos hc] at hsucc ⊢
    exact NewOK.newOK_refl env doc s
  · rw [if_neg hc] at hsucc ⊢
    rcases hfl : refFlatten env doc pre table errDefs errId recur c (s.mark c) with ⟨s₄, r₄⟩
    rw [hfl] at hsucc
    rcases r₄ with _ | e
    swap
    · dsimp only at hsucc; exact absurd hsucc (by simp)
    dsimp only at hsucc ⊢
    -- Facts about the flattening phase.
    have hx : PresX c (s.mark c) s₄ := by
      have := refFlatten_presX env doc pre table errDefs errId recur hrec_pres c (s.mark c)
      rwa [hfl] at this
    have hc₄ : c ∈ s₄.visited := hx.1 c (by simp [State.mark])
    -- NewOK for the flattening phase, with respect to `s`.
    have hN₁ : NewOK env doc s s₄ := by
      unfold refFlatten at hfl
      split at hfl
      · -- no reference string: s₄ = s.mark c, only c is new, HopInv vacuous
        rename_i hcref
        rcases hfl with ⟨⟩
        intro d hd hnd
        intro hne
        have hdc : d = c := by
          rcases List.mem_cons.mp hd with h | h
          · exact h
          · exact absurd h hnd
        exact absurd (hdc ▸ hne) (by simpa using hcref)
      · rename_i hcref
        rcases hcomp : resolveComponent env doc (env.refStr c) pre (s.mark c) with ⟨s₂, r₂⟩
        rw [hcomp] at hfl
        rcases r₂ with e | ⟨comps, id⟩
        · cases hfl
        · dsimp only at hfl
          rcases htc : table comps with _ | defs <;> rw [htc] at hfl <;> dsimp only at hfl
          · cases hfl
          · rcases hlk : defs.lookup id with _ | resolved <;> rw [hlk] at hfl <;>
              dsimp only at hfl
            · cases hfl
            · rcases hrc : recur resolved s₂ with ⟨s₃, r₃⟩
              rw [hrc] at hfl
              rcases r₃ with _ | e
              swap
              · dsimp only at hfl; cases hfl
              dsimp only at hfl
              rcases hfl with ⟨⟩
              -- components / state facts
              have hcst := resolveComponent_state env doc (env.refStr c) pre (s.mark c)
              rw [hcomp] at hcst
              have hok := resolveComponent_ok env doc (env.refStr c) pre (s.mark c) hcomp
              have hrk : resolved.kind = c.kind := hkind comps hok.2 defs id resolved htc hlk
              -- the target of c is precisely `resolved`
              have htgt : targetOf env doc c = some resolved := by
                unfold targetOf
                rw [← hpre, hok.1]
                dsimp only
                rw [← htable comps, htc]
                exact hlk
              -- membership bookkeeping
              have hc₂ : c ∈ s₂.visited := by rw [hcst.1]; simp [State.mark]
              have hp₂₃ : Pres s₂ s₃ := by
                have := hrec_pres resolved s₂; rwa [hrc] at this
              have hc₃ : c ∈ s₃.visited := hp₂₃.1 c hc₂
              have hrm : resolved ∈ s₃.visited := by
                have := hrec_mem resolved s₂; rw [hrc] at this; exact this rfl
              have hNrec : NewOK env doc s₂ s₃ := by
                have := hrec_new resolved s₂ hrk; rw [hrc] at this; exact this rfl
              -- the final state of the phase
              intro d hd hnd
              rw [State.setValue_visited] at hd
              by_cases hdc : d = c
              · -- c itself: target resolved, Values copied
                subst hdc
                intro _
                refine ⟨resolved, htgt, by simpa using hrm, fun _ => ?_⟩
                by_cases hres : resolved = d
                · rw [hres]
                · rw [State.setValue_value_same, State.setValue_value_other _ _ _ _ hres]
              · -- a node freshly visited by the recursive target resolution
                have hd₂ : d ∉ s₂.visited := by
                  rw [hcst.1]
                  intro hmem
                  rcases List.mem_cons.mp hmem with h | h
                  · exact hdc h
                  · exact hnd h
                have hInv₃ : HopInv env doc s₃ d := hNrec d hd hd₂
                exact hInv₃.hop_setValue hdc hcref
    -- Compose with the Value-descent phase.
    rcases hvc : s₄.value c with _ | v <;> rw [hvc] at hsucc <;> dsimp only at hsucc ⊢
    · exact hN₁.newOK_trans (honNil_new s₄ hsucc) (honNil_pres s₄)
    · exact hN₁.newOK_trans (hdesc_new v s₄ hsucc) (hdesc_pres v s₄)

/-- In a well-formed world, whatever components aggregate the locator hands
back, a successful lookup in kind `k`'s table yields a handle of kind `k`. -/
theorem compsFrom_kind (env : Env) (doc : Doc) (hwf : WF env doc) (k : Kind)
    {comps : Components} (hfrom : CompsFrom env doc comps)
    {defs : List (GoStr × RefId)} {id : GoStr} {r : RefId}
    (htc : kindTable k comps = some defs) (hlk : defs.lookup id = some r) :
    r.kind = k := by
  have hcomps : CompsOK comps := by
    rcases hfrom with rfl | ⟨l, d₂, hld, rfl⟩
    · exact hwf.2.1.1
    · exact hwf.2.2 l d₂ hld
  obtain ⟨a, ha⟩ := lookup_mem hlk
  cases k
  · exact hcomps.1 defs htc (a, r) ha
  · exact hcomps.2.1 defs htc (a, r) ha
  · exact hcomps.2.2.1 defs htc (a, r) ha
  · exact hcomps.2.2.2.1 defs htc (a, r) ha
  · exact hcomps.2.2.2.2.1 defs htc (a, r) ha
  · exact hcomps.2.2.2.2.2.1 defs htc (a, r) ha
  · exact hcomps.2.2.2.2.2.2 defs htc (a, r) ha

/-- On success, every node the Schema resolver freshly visits satisfies the
single-hop flattening invariant. -/
theorem schemaStep_newOK (env : Env) (doc : Doc) (hwf : WF env doc) :
    ∀ (fuel : Nat) (t : SchemaTask) (s : State),
      (match t with
       | .one c => c.kind = Kind.schema
       | .many cs => ∀ x ∈ cs, x.kind = Kind.schema) →
      (schemaStep env doc fuel t s).2 = none →
      NewOK env doc s (schemaStep env doc fuel t s).1 := by
  intro fuel
  induction fuel with
  | zero => intro t s _ hsucc; exact absurd hsucc (by simp [schemaStep])
  | succ fuel ih =>
    intro t s hk hsucc
    match t with
    | .many [] => exact NewOK.newOK_refl env doc s
    | .many (c :: cs) =>
      have hk' : ∀ x ∈ c :: cs, x.kind = Kind.schema := hk
      simp only [schemaStep] at hsucc ⊢
      rcases hx : schemaStep env doc fuel (.one c) s with ⟨s₁, r₁⟩
      rw [hx] at hsucc
      rcases r₁ with _ | e
      · dsimp only at hsucc ⊢
        have h₁ : NewOK env doc s s₁ := by
          have := ih (.one c) s (hk' c (List.mem_cons_self _ _))
          rw [hx] at this
          exact this rfl
        have h₂ := ih (.many cs) s₁ (fun x hxm => hk' x (List.mem_cons_of_mem _ hxm)) hsucc
        exact h₁.newOK_trans h₂ (schemaStep_pres env doc fuel (.many cs) s₁)
      · dsimp only at hsucc; exact absurd hsucc (by simp)
    | .one c =>
      have hkc : c.kind = Kind.schema := hk
      simp only [schemaStep] at hsucc ⊢
      refine refResolve_newOK env doc _ _ _ _ _ _ _ c
        ?_ ?_ ?_
        (fun r s => schemaStep_pres env doc fuel (.one r) s)
        (fun r s h => schemaStep_one_mem env fuel doc r s h)
        (fun r s hrk h => ih (.one r) s (show r.kind = Kind.schema by rw [hrk, hkc]) h)
        (fun s => Pres.refl s)
        (fun s h => absurd h (by simp))
        (fun v s₄ => ?_) (fun v s₄ hds => ?_) s hsucc
      · rw [hkc]; rfl
      · intro comps; rw [hkc]; rfl
      · intro comps hfrom defs id r htc hlk
        rw [hkc]
        exact compsFrom_kind env doc hwf Kind.schema hfrom htc hlk
      · refine andThen_pres ?_ (fun s₅ => ?_)
        · rcases env.schItems v with _ | it
          · exact Pres.refl s₄
          · exact schemaStep_pres env doc fuel (.one it) s₄
        · refine andThen_pres ?_ (fun s₆ => ?_)
          · rcases env.schProps v with _ | props
            · exact Pres.refl s₅
            · exact schemaStep_pres env doc fuel (.many (props.map Prod.snd)) s₅
          · rcases env.schAddl v with _ | ad
            · exact Pres.refl s₆
            · exact schemaStep_pres env doc fuel (.one ad) s₆
      · refine andThen_newOK ?_ (fun s₅ => ?_) (fun s₅ h => ?_) hds
        · intro h
          rcases hit : env.schItems v with _ | it
          · exact NewOK.newOK_refl env doc s₄
          · rw [hit] at h
            exact ih (.one it) s₄ (hwf.1.2.2.2.1 v it hit) h
        · refine andThen_pres ?_ (fun s₆ => ?_)
          · rcases env.schProps v with _ | props
            · exact Pres.refl s₅
            · exact schemaStep_pres env doc fuel (.many (props.map Prod.snd)) s₅
          · rcases env.schAddl v with _ | ad
            · exact Pres.refl s₆
            · exact schemaStep_pres env doc fuel (.one ad) s₆
        · refine andThen_newOK ?_ (fun s₆ => ?_) (fun s₆ h₆ => ?_) h
          · intro h'
            rcases hpr : env.schProps v with _ | props
            · exact NewOK.newOK_refl env doc s₅
            · rw [hpr] at h'
              refine ih (.many (props.map Prod.snd)) s₅ ?_ h'
              intro x hxm
              obtain ⟨p, hp, hpx⟩ := List.mem_map.mp hxm
              exact hpx ▸ hwf.1.2.2.2.2.1 v props hpr p hp
          · rcases env.schAddl v with _ | ad
            · exact Pres.refl s₆
            · exact schemaStep_pres env doc fuel (.one ad) s₆
          · rcases had : env.schAddl v with _ | ad
            · exact NewOK.newOK_refl env doc s₆
            · rw [had] at h₆
              exact ih (.one ad) s₆ (hwf.1.2.2.2.2.2 v ad had) h₆

/-- On success, every node the Header resolver freshly visits satisfies the
single-hop flattening invariant. -/
theorem resolveHeaderRef_newOK (env : Env) (doc : Doc) (hwf : WF env doc) :
    ∀ (fuel : Nat) (c : RefId) (s : State), c.kind = Kind.header →
      (resolveHeaderRef env fuel doc c s).2 = none →
      NewOK env doc s (resolveHeaderRef env fuel doc c s).1 := by
  intro fuel
  induction fuel with
  | zero => intro c s _ hsucc; exact absurd hsucc (by simp [resolveHeaderRef])
  | succ fuel ih =>
    intro c s hkc hsucc
    simp only [resolveHeaderRef] at hsucc ⊢
    refine refResolve_newOK env doc _ _ _ _ _ _ _ c ?_ ?_ ?_
      (fun r s => resolveHeaderRef_pres env fuel doc r s)
      (fun r s h => resolveHeaderRef_mem env fuel doc r s h)
      (fun r s hrk h => ih r s (hrk.trans hkc) h)
      (fun s => Pres.refl s)
      (fun s _ => NewOK.newOK_refl env doc s)
      (fun v s₄ => ?_) (fun v s₄ hds => ?_) s hsucc
    · rw [hkc]; rfl
    · intro comps; rw [hkc]; rfl
    · intro comps hfrom defs id r htc hlk
      rw [hkc]
      exact compsFrom_kind env doc hwf Kind.header hfrom htc hlk
    · rcases env.headerSchema v with _ | sch
      · exact Pres.refl s₄
      · exact schemaStep_pres env doc fuel (.one sch) s₄
    · rcases hhs : env.headerSchema v with _ | sch
      · exact NewOK.newOK_refl env doc s₄
      · rw [hhs] at hds
        exact schemaStep_newOK env doc hwf fuel (.one sch) s₄ (hwf.1.1 v sch hhs) hds

/-- On success, every node the Parameter resolver freshly visits satisfies
the single-hop flattening invariant. -/
theorem resolveParameterRef_newOK (env : Env) (doc : Doc) (hwf : WF env doc) :
    ∀ (fuel : Nat) (c : RefId) (s : State), c.kind = Kind.param →
      (resolveParameterRef env fuel doc c s).2 = none →
      NewOK env doc s (resolveParameterRef env fuel doc c s).1 := by
  intro fuel
  induction fuel with
  | zero => intro c s _ hsucc; exact absurd hsucc (by simp [resolveParameterRef])
  | succ fuel ih =>
    intro c s hkc hsucc
    simp only [resolveParameterRef] at hsucc ⊢
    refine refResolve_newOK env doc _ _ _ _ _ _ _ c ?_ ?_ ?_
      (fun r s => resolveParameterRef_pres env fuel doc r s)
      (fun r s h => resolveParameterRef_mem env fuel doc r s h)
      (fun r s hrk h => ih r s (hrk.trans hkc) h)
      (fun s => Pres.refl s)
      (fun s _ => NewOK.newOK_refl env doc s)
      (fun v s₄ => ?_) (fun v s₄ hds => ?_) s hsucc
    · rw [hkc]; rfl
    · intro comps; rw [hkc]; rfl
    · intro comps hfrom defs id r htc hlk
      rw [hkc]
      exact compsFrom_kind env doc hwf Kind.param hfrom htc hlk
    · rcases env.paramSchema v with _ | sch
      · exact Pres.refl s₄
      · exact schemaStep_pres env doc fuel (.one sch) s₄
    · rcases hps : env.paramSchema v with _ | sch
      · exact NewOK.newOK_refl env doc s₄
      · rw [hps] at hds
        exact schemaStep_newOK env doc hwf fuel (.one sch) s₄ (hwf.1.2.1 v sch hps) hds

/-- On success, every node the RequestBody resolver freshly visits satisfies
the single-hop flattening invariant. -/
theorem resolveRequestBodyRef_newOK (env : Env) (doc : Doc) (hwf : WF env doc) :
    ∀ (fuel : Nat) (c : RefId) (s : State), c.kind = Kind.reqBody →
      (resolveRequestBodyRef env fuel doc c s).2 = none →
      NewOK env doc s (resolveRequestBodyRef env fuel doc c s).1 := by
  intro fuel
  induction fuel with
  | zero => intro c s _ hsucc; exact absurd hsucc (by simp [resolveRequestBodyRef])
  | succ fuel ih =>
    intro c s hkc hsucc
    simp only [resolveRequestBodyRef] at hsucc ⊢
    refine refResolve_newOK env doc _ _ _ _ _ _ _ c ?_ ?_ ?_
      (fun r s => resolveRequestBodyRef_pres env fuel doc r s)
      (fun r s h => resolveRequestBodyRef_mem env fuel doc r s h)
      (fun r s hrk h => ih r s (hrk.trans hkc) h)
      (fun s => Pres.refl s)
      (fun s _ => NewOK.newOK_refl env doc s)
      (fun v s₄ => ?_) (fun v s₄ hds => ?_) s hsucc
    · rw [hkc]; rfl
    · intro comps; rw [hkc]; rfl
    · intro comps hfrom defs id r htc hlk
      rw [hkc]
      exact compsFrom_kind env doc hwf Kind.reqBody hfrom htc hlk
    · rcases env.bodyContent v with _ | content
      · exact Pres.refl s₄
      · refine foldErr_pres _ (fun mt s => ?_) content s₄
        obtain ⟨nm, o⟩ := mt
        rcases o with _ | m
        · exact Pres.refl s
        · dsimp only
          rcases env.mediaSchema m with _ | sch
          · exact Pres.refl s
          · exact schemaStep_pres env doc fuel (.one sch) s
    · rcases hbc : env.bodyContent v with _ | content
      · exact NewOK.newOK_refl env doc s₄
      · rw [hbc] at hds
        refine foldErr_newOK _ content s₄ (fun mt _ s => ?_) (fun mt _ s h => ?_) hds
        · obtain ⟨nm, o⟩ := mt
          rcases o with _ | m
          · exact Pres.refl s
          · dsimp only
            rcases env.mediaSchema m with _ | sch
            · exact Pres.refl s
            · exact schemaStep_pres env doc fuel (.one sch) s
        · obtain ⟨nm, o⟩ := mt
          rcases o with _ | m
          · exact absurd h (by simp)
          · dsimp only at h ⊢
            rcases hms : env.mediaSchema m with _ | sch
            · exact NewOK.newOK_refl env doc s
            · rw [hms] at h
              exact schemaStep_newOK env doc hwf fuel (.one sch) s (hwf.1.2.2.1 m sch hms) h

/-- On success, every node the Response resolver freshly visits satisfies
the single-hop flattening invariant. -/
theorem resolveResponseRef_newOK (env : Env) (doc : Doc) (hwf : WF env doc) :
    ∀ (fuel : Nat) (c : RefId) (s : State), c.kind = Kind.resp →
      (resolveResponseRef env fuel doc c s).2 = none →
      NewOK env doc s (resolveResponseRef env fuel doc c s).1 := by
  intro fuel
  induction fuel with
  | zero => intro c s _ hsucc; exact absurd hsucc (by simp [resolveResponseRef])
  | succ fuel ih =>
    intro c s hkc hsucc
    simp only [resolveResponseRef] at hsucc ⊢
    refine refResolve_newOK env doc _ _ _ _ _ _ _ c ?_ ?_ ?_
      (fun r s => resolveResponseRef_pres env fuel doc r s)
      (fun r s h => resolveResponseRef_mem env fuel doc r s h)
      (fun r s hrk h => ih r s (hrk.trans hkc) h)
      (fun s => Pres.refl s)
      (fun s _ => NewOK.newOK_refl env doc s)
      (fun v s₄ => ?_) (fun v s₄ hds => ?_) s hsucc
    · rw [hkc]; rfl
    · intro comps; rw [hkc]; rfl
    · intro comps hfrom defs id r htc hlk
      rw [hkc]
      exact compsFrom_kind env doc hwf Kind.resp hfrom htc hlk
    · rcases env.respContent v with _ | content
      · exact Pres.refl s₄
      · refine foldErr_pres _ (fun mt s => ?_) content s₄
        obtain ⟨nm, o⟩ := mt
        rcases o with _ | m
        · exact Pres.refl s
        · dsimp only
          rcases env.mediaSchema m with _ | sch
          · exact Pres.refl s
          · exact schemaStep_pres env doc fuel (.one sch) s
    · rcases hrc : env.respContent v with _ | content
      · exact NewOK.newOK_refl env doc s₄
      · rw [hrc] at hds
        refine foldErr_newOK _ content s₄ (fun mt _ s => ?_) (fun mt _ s h => ?_) hds
        · obtain ⟨nm, o⟩ := mt
          rcases o with _ | m
          · exact Pres.refl s
          · dsimp only
            rcases env.mediaSchema m with _ | sch
            · exact Pres.refl s
            · exact schemaStep_pres env doc fuel (.one sch) s
        · obtain ⟨nm, o⟩ := mt
          rcases o with _ | m
          · exact NewOK.newOK_refl env doc s
          · dsimp only at h ⊢
            rcases hms : env.mediaSchema m with _ | sch
            · exact NewOK.newOK_refl env doc s
            · rw [hms] at h
              exact schemaStep_newOK env doc hwf fuel (.one sch) s (hwf.1.2.2.1 m sch hms) h

/-- On success, every node the SecurityScheme resolver freshly visits
satisfies the single-hop flattening invariant. -/
theorem resolveSecuritySchemeRef_newOK (env : Env) (doc : Doc) (hwf : WF env doc) :
    ∀ (fuel : Nat) (c : RefId) (s : State), c.kind = Kind.secScheme →
      (resolveSecuritySchemeRef env fuel doc c s).2 = none →
      NewOK env doc s (resolveSecuritySchemeRef env fuel doc c s).1 := by
  intro fuel
  induction fuel with
  | zero => intro c s _ hsucc; exact absurd hsucc (by simp [resolveSecuritySchemeRef])
  | succ fuel ih =>
    intro c s hkc hsucc
    simp only [resolveSecuritySchemeRef] at hsucc ⊢
    refine refResolve_newOK env doc _ _ _ _ _ _ _ c ?_ ?_ ?_
      (fun r s => resolveSecuritySchemeRef_pres env fuel doc r s)
      (fun r s h => resolveSecuritySchemeRef_mem env fuel doc r s h)
      (fun r s hrk h => ih r s (hrk.trans hkc) h)
      (fun s => Pres.refl s)
      (fun s _ => NewOK.newOK_refl env doc s)
      (fun _ s => Pres.refl s) (fun _ s _ => NewOK.newOK_refl env doc s) s hsucc
    · rw [hkc]; rfl
    · intro comps; rw [hkc]; rfl
    · intro comps hfrom defs id r htc hlk
      rw [hkc]
      exact compsFrom_kind env doc hwf Kind.secScheme hfrom htc hlk

/-- On success, every node the operation walk freshly visits satisfies the
single-hop flattening invariant. -/
theorem resolveOperation_newOK (env : Env) (doc : Doc) (hwf : WF env doc)
    (fuel : Nat) (op : Operation) (hop : OpOK op) (s : State)
    (hsucc : (resolveOperation env fuel doc op s).2 = none) :
    NewOK env doc s (resolveOperation env fuel doc op s).1 := by
  unfold resolveOperation at hsucc ⊢
  refine andThen_newOK ?_ (fun s' => ?_) (fun s' h' => ?_) hsucc
  · intro h
    rcases hps : op.parameters with _ | ps
    · exact NewOK.newOK_refl env doc s
    · rw [hps] at h
      exact foldErr_newOK _ ps s
        (fun p _ s => resolveParameterRef_pres env fuel doc p s)
        (fun p hp s h => resolveParameterRef_newOK env doc hwf fuel p s
          (hop.1 ps hps p hp) h) h
  · refine andThen_pres ?_ (fun s'' => ?_)
    · rcases op.requestBody with _ | rb
      · exact Pres.refl s'
      · exact resolveRequestBodyRef_pres env fuel doc rb s'
    · rcases op.responses with _ | rs
      · exact Pres.refl s''
      · exact foldErr_pres _ (fun r s => resolveResponseRef_pres env fuel doc r.2 s) rs s''
  · refine andThen_newOK ?_ (fun s'' => ?_) (fun s'' h'' => ?_) h'
    · intro h
      rcases hrb : op.requestBody with _ | rb
      · exact NewOK.newOK_refl env doc s'
      · rw [hrb] at h
        exact resolveRequestBodyRef_newOK env doc hwf fuel rb s' (hop.2.1 rb hrb) h
    · rcases op.responses with _ | rs
      · exact Pres.refl s''
      · exact foldErr_pres _ (fun r s => resolveResponseRef_pres env fuel doc r.2 s) rs s''
    · rcases hrs : op.responses with _ | rs
      · exact NewOK.newOK_refl env doc s''
      · rw [hrs] at h''
        exact foldErr_newOK _ rs s''
          (fun r _ s => resolveResponseRef_pres env fuel doc r.2 s)
          (fun r hr s h => resolveResponseRef_newOK env doc hwf fuel r.2 s
            (hop.2.2 rs hrs r hr) h) h''

/-- Master invariant of the top-level walk: on success, every visited node
satisfies the single-hop flattening invariant at the final state. -/
theorem resolveRefsIn_hopInv (env : Env) (doc : Doc) (hwf : WF env doc)
    (fuel : Nat) (s₀ : State)
    (hsucc : (resolveRefsIn env fuel doc s₀).2 = none) :
    ∀ d ∈ (resolveRefsIn env fuel doc s₀).1.visited,
      HopInv env doc (resolveRefsIn env fuel doc s₀).1 d := by
  have hN : NewOK env doc { s₀ with visited := [] } (resolveRefsIn env fuel doc s₀).1 := by
    unfold resolveRefsIn at hsucc ⊢
    refine andThen_newOK ?_ (fun s₁ => ?_) (fun s₁ h₁ => ?_) hsucc
    · intro h
      rcases hm : doc.components.headers with _ | m
      · exact NewOK.newOK_refl env doc _
      · rw [hm] at h
        exact foldErr_newOK _ m _
          (fun e _ s => resolveHeaderRef_pres env fuel doc e.2 s)
          (fun e he s h => resolveHeaderRef_newOK env doc hwf fuel e.2 s
            (hwf.2.1.1.1 m hm e he) h) h
    · refine andThen_pres ?_ (fun s₂ => ?_)
      · rcases doc.components.parameters with _ | m
        · exact Pres.refl _
        · exact foldErr_pres _ (fun e s => resolveParameterRef_pres env fuel doc e.2 s) m _
      · refine andThen_pres ?_ (fun s₃ => ?_)
        · rcases doc.components.requestBodies with _ | m
          · exact Pres.refl _
          · exact foldErr_pres _ (fun e s => resolveRequestBodyRef_pres env fuel doc e.2 s) m _
        · refine andThen_pres ?_ (fun s₄ => ?_)
          · rcases doc.components.responses with _ | m
            · exact Pres.refl _
            · exact foldErr_pres _ (fun e s => resolveResponseRef_pres env fuel doc e.2 s) m _
          · refine andThen_pres ?_ (fun s₅ => ?_)
            · rcases doc.components.schemas with _ | m
              · exact Pres.refl _
              · exact foldErr_pres _ (fun e s => schemaStep_pres env doc fuel (.one e.2) s) m _
            · refine andThen_pres ?_ (fun s₆ => ?_)
              · rcases doc.components.securitySchemes with _ | m
                · exact Pres.refl _
                · exact foldErr_pres _
                    (fun e s => resolveSecuritySchemeRef_pres env fuel doc e.2 s) m _
              · rcases doc.paths with _ | paths
                · exact Pres.refl _
                · refine foldErr_pres _ (fun p s => ?_) paths _
                  rcases p.2 with _ | pi
                  · exact Pres.refl s
                  · exact foldErr_pres _ (fun op s => resolveOperation_pres env fuel doc op s)
                      pi.operations s
    · refine andThen_newOK ?_ (fun s₂ => ?_) (fun s₂ h₂ => ?_) h₁
      · intro h
        rcases hm : doc.components.parameters with _ | m
        · exact NewOK.newOK_refl env doc _
        · rw [hm] at h
          exact foldErr_newOK _ m _
            (fun e _ s => resolveParameterRef_pres env fuel doc e.2 s)
            (fun e he s h => resolveParameterRef_newOK env doc hwf fuel e.2 s
              (hwf.2.1.1.2.1 m hm e he) h) h
      · refine andThen_pres ?_ (fun s₃ => ?_)
        · rcases doc.components.requestBodies with _ | m
          · exact Pres.refl _
          · exact foldErr_pres _ (fun e s => resolveRequestBodyRef_pres env fuel doc e.2 s) m _
        · refine andThen_pres ?_ (fun s₄ => ?_)
          · rcases doc.components.responses with _ | m
            · exact Pres.refl _
            · exact foldErr_pres _ (fun e s => resolveResponseRef_pres env fuel doc e.2 s) m _
          · refine andThen_pres ?_ (fun s₅ => ?_)
            · rcases doc.components.schemas with _ | m
              · exact Pres.refl _
              · exact foldErr_pres _ (fun e s => schemaStep_pres env doc fuel (.one e.2) s) m _
            · refine andThen_pres ?_ (fun s₆ => ?_)
              · rcases doc.components.securitySchemes with _ | m
                · exact Pres.refl _
                · exact foldErr_pres _
                    (fun e s => resolveSecuritySchemeRef_pres env fuel doc e.2 s) m _
              · rcases doc.paths with _ | paths
                · exact Pres.refl _
                · refine foldErr_pres _ (fun p s => ?_) paths _
                  rcases p.2 with _ | pi
                  · exact Pres.refl s
                  · exact foldErr_pres _ (fun op s => resolveOperation_pres env fuel doc op s)
                      pi.operations s
      · refine andThen_newOK ?_ (fun s₃ => ?_) (fun s₃ h₃ => ?_) h₂
        · intro h
          rcases hm : doc.components.requestBodies with _ | m
          · exact NewOK.newOK_refl env doc _
          · rw [hm] at h
            exact foldErr_newOK _ m _
              (fun e _ s => resolveRequestBodyRef_pres env fuel doc e.2 s)
              (fun e he s h => resolveRequestBodyRef_newOK env doc hwf fuel e.2 s
                (hwf.2.1.1.2.2.1 m hm e he) h) h
        · refine andThen_pres ?_ (fun s₄ => ?_)
          · rcases doc.components.responses with _ | m
            · exact Pres.refl _
            · exact foldErr_pres _ (fun e s => resolveResponseRef_pres env fuel doc e.2 s) m _
          · refine andThen_pres ?_ (fun s₅ => ?_)
            · rcases doc.components.schemas with _ | m
              · exact Pres.refl _
              · exact foldErr_pres _ (fun e s => schemaStep_pres env doc fuel (.one e.2) s) m _
            · refine andThen_pres ?_ (fun s₆ => ?_)
              · rcases doc.components.securitySchemes with _ | m
                · exact Pres.refl _
                · exact foldErr_pres _
                    (fun e s => resolveSecuritySchemeRef_pres env fuel doc e.2 s) m _
              · rcases doc.paths with _ | paths
                · exact Pres.refl _
                · refine foldErr_pres _ (fun p s => ?_) paths _
                  rcases p.2 with _ | pi
                  · exact Pres.refl s
                  · exact foldErr_pres _ (fun op s => resolveOperation_pres env fuel doc op s)
                      pi.operations s
        · refine andThen_newOK ?_ (fun s₄ => ?_) (fun s₄ h₄ => ?_) h₃
          · intro h
            rcases hm : doc.components.responses with _ | m
            · exact NewOK.newOK_refl env doc _
            · rw [hm] at h
              exact foldErr_newOK _ m _
                (fun e _ s => resolveResponseRef_pres env fuel doc e.2 s)
                (fun e he s h => resolveResponseRef_newOK env doc hwf fuel e.2 s
                  (hwf.2.1.1.2.2.2.1 m hm e he) h) h
          · refine andThen_pres ?_ (fun s₅ => ?_)
            · rcases doc.components.schemas with _ | m
              · exact Pres.refl _
              · exact foldErr_pres _ (fun e s => schemaStep_pres env doc fuel (.one e.2) s) m _
            · refine andThen_pres ?_ (fun s₆ => ?_)
              · rcases doc.components.securitySchemes with _ | m
                · exact Pres.refl _
                · exact foldErr_pres _
                    (fun e s => resolveSecuritySchemeRef_pres env fuel doc e.2 s) m _
              · rcases doc.paths with _ | paths
                · exact Pres.refl _
                · refine foldErr_pres _ (fun p s => ?_) paths _
                  rcases p.2 with _ | pi
                  · exact Pres.refl s
                  · exact foldErr_pres _ (fun op s => resolveOperation_pres env fuel doc op s)
                      pi.operations s
          · refine andThen_newOK ?_ (fun s₅ => ?_) (fun s₅ h₅ => ?_) h₄
            · intro h
              rcases hm : doc.components.schemas with _ | m
              · exact NewOK.newOK_refl env doc _
              · rw [hm] at h
                exact foldErr_newOK _ m _
                  (fun e _ s => schemaStep_pres env doc fuel (.one e.2) s)
                  (fun e he s h => schemaStep_newOK env doc hwf fuel (.one e.2) s
                    (hwf.2.1.1.2.2.2.2.1 m hm e he) h) h
            · refine andThen_pres ?_ (fun s₆ => ?_)
              · rcases doc.components.securitySchemes with _ | m
                · exact Pres.refl _
                · exact foldErr_pres _
                    (fun e s => resolveSecuritySchemeRef_pres env fuel doc e.2 s) m _
              · rcases doc.paths with _ | paths
                · exact Pres.refl _
                · refine foldErr_pres _ (fun p s => ?_) paths _
                  rcases p.2 with _ | pi
                  · exact Pres.refl s
                  · exact foldErr_pres _ (fun op s => resolveOperation_pres env fuel doc op s)
                      pi.operations s
            · refine andThen_newOK ?_ (fun s₆ => ?_) (fun s₆ h₆ => ?_) h₅
              · intro h
                rcases hm : doc.components.securitySchemes with _ | m
                · exact NewOK.newOK_refl env doc _
                · rw [hm] at h
                  exact foldErr_newOK _ m _
                    (fun e _ s => resolveSecuritySchemeRef_pres env fuel doc e.2 s)
                    (fun e he s h => resolveSecuritySchemeRef_newOK env doc hwf fuel e.2 s
                      (hwf.2.1.1.2.2.2.2.2.1 m hm e he) h) h
              · rcases doc.paths with _ | paths
                · exact Pres.refl _
                · refine foldErr_pres _ (fun p s => ?_) paths _
                  rcases p.2 with _ | pi
                  · exact Pres.refl s
                  · exact foldErr_pres _ (fun op s => resolveOperation_pres env fuel doc op s)
                      pi.operations s
              · rcases hpth : doc.paths with _ | paths
                · exact NewOK.newOK_refl env doc _
                · rw [hpth] at h₆
                  refine foldErr_newOK _ paths _ (fun p _ s => ?_) (fun p hp s h => ?_) h₆
                  · rcases p.2 with _ | pi
                    · exact Pres.refl s
                    · exact foldErr_pres _
                        (fun op s => resolveOperation_pres env fuel doc op s) pi.operations s
                  · rcases hpi : p.2 with _ | pi
                    · exact NewOK.newOK_refl env doc s
                    · rw [hpi] at h
                      exact foldErr_newOK _ pi.operations s
                        (fun op _ s => resolveOperation_pres env fuel doc op s)
                        (fun op hopm s h => resolveOperation_newOK env doc hwf fuel op
                          (hwf.2.1.2 paths hpth p hp pi hpi op hopm) s h) h
  intro d hd
  exact hN d hd (by simp)

/-- All handles of one (optional) component table are visited in state `s`. -/
def MemAll (l : Option (List (GoStr × RefId))) (s : State) : Prop :=
  ∀ m, l = some m → ∀ e ∈ m, (e : GoStr × RefId).2 ∈ s.visited

theorem MemAll.memAll_mono {l : Option (List (GoStr × RefId))} {s s' : State}
    (h : MemAll l s) (hp : Pres s s') : MemAll l s' :=
  fun m hm e he => hp.1 _ (h m hm e he)

/-- On success, the top-level walk has visited every entry of the six
component tables it iterates (Headers, Parameters, RequestBodies, Responses,
Schemas, SecuritySchemes). -/
theorem resolveRefsIn_tablesVisited (env : Env) (fuel : Nat) (doc : Doc) (s₀ : State)
    (hsucc : (resolveRefsIn env fuel doc s₀).2 = none) :
    MemAll doc.components.headers (resolveRefsIn env fuel doc s₀).1 ∧
    MemAll doc.components.parameters (resolveRefsIn env fuel doc s₀).1 ∧
    MemAll doc.components.requestBodies (resolveRefsIn env fuel doc s₀).1 ∧
    MemAll doc.components.responses (resolveRefsIn env fuel doc s₀).1 ∧
    MemAll doc.components.schemas (resolveRefsIn env fuel doc s₀).1 ∧
    MemAll doc.components.securitySchemes (resolveRefsIn env fuel doc s₀).1 := by
  unfold resolveRefsIn at hsucc ⊢
  dsimp only at hsucc ⊢
  rcases h₁ : (match doc.components.headers with
      | none => ({ s₀ with visited := [] }, none)
      | some m => foldErr (fun (e : GoStr × RefId) s => resolveHeaderRef env fuel doc e.2 s) m
          { s₀ with visited := [] }) with ⟨s₁, r₁⟩
  rw [h₁] at hsucc ⊢
  rcases r₁ with _ | e
  swap
  · exact absurd hsucc (by simp [andThen])
  have hA₁ : MemAll doc.components.headers s₁ := by
    intro m hm e he
    rw [hm] at h₁
    dsimp only at h₁
    have := foldErr_mem _ (fun (e : GoStr × RefId) => e.2)
      (fun x s => resolveHeaderRef_pres env fuel doc x.2 s)
      (fun x s h => resolveHeaderRef_mem env fuel doc x.2 s h) m { s₀ with visited := [] }
    rw [h₁] at this
    exact this rfl e he
  simp only [andThen] at hsucc ⊢
  rcases h₂ : (match doc.components.parameters with
      | none => (s₁, none)
      | some m => foldErr (fun (e : GoStr × RefId) s => resolveParameterRef env fuel doc e.2 s)
          m s₁) with ⟨s₂, r₂⟩
  rw [h₂] at hsucc ⊢
  rcases r₂ with _ | e
  swap
  · exact absurd hsucc (by simp)
  dsimp only at hsucc ⊢
  have hp₂ : Pres s₁ s₂ := by
    have : Pres s₁ (match doc.components.parameters with
        | none => (s₁, none)
        | some m => foldErr (fun (e : GoStr × RefId) s => resolveParameterRef env fuel doc e.2 s)
            m s₁).1 := by
      rcases doc.components.parameters with _ | m
      · exact Pres.refl s₁
      · exact foldErr_pres _ (fun e s => resolveParameterRef_pres env fuel doc e.2 s) m s₁
    rwa [h₂] at this
  have hA₂ : MemAll doc.components.parameters s₂ := by
    intro m hm e he
    rw [hm] at h₂
    dsimp only at h₂
    have := foldErr_mem _ (fun (e : GoStr × RefId) => e.2)
      (fun x s => resolveParameterRef_pres env fuel doc x.2 s)
      (fun x s h => resolveParameterRef_mem env fuel doc x.2 s h) m s₁
    rw [h₂] at this
    exact this rfl e he
  rcases h₃ : (match doc.components.requestBodies with
      | none => (s₂, none)
      | some m => foldErr (fun (e : GoStr × RefId) s => resolveRequestBodyRef env fuel doc e.2 s)
          m s₂) with ⟨s₃, r₃⟩
  rw [h₃] at hsucc ⊢
  rcases r₃ with _ | e
  swap
  · exact absurd hsucc (by simp)
  dsimp only at hsucc ⊢
  have hp₃ : Pres s₂ s₃ := by
    have : Pres s₂ (match doc.components.requestBodies with
        | none => (s₂, none)
        | some m => foldErr (fun (e : GoStr × RefId) s => resolveRequestBodyRef env fuel doc e.2 s)
            m s₂).1 := by
      rcases doc.components.requestBodies with _ | m
      · exact Pres.refl s₂
      · exact foldErr_pres _ (fun e s => resolveRequestBodyRef_pres env fuel doc e.2 s) m s₂
    rwa [h₃] at this
  have hA₃ : MemAll doc.components.requestBodies s₃ := by
    intro m hm e he
    rw [hm] at h₃
    dsimp only at h₃
    have := foldErr_mem _ (fun (e : GoStr × RefId) => e.2)
      (fun x s => resolveRequestBodyRef_pres env fuel doc x.2 s)
      (fun x s h => resolveRequestBodyRef_mem env fuel doc x.2 s h) m s₂
    rw [h₃] at this
    exact this rfl e he
  rcases h₄ : (match doc.components.responses with
      | none => (s₃, none)
      | some m => foldErr (fun (e : GoStr × RefId) s => resolveResponseRef env fuel doc e.2 s)
          m s₃) with ⟨s₄, r₄⟩
  rw [h₄] at hsucc ⊢
  rcases r₄ with _ | e
  swap
  · exact absurd hsucc (by simp)
  dsimp only at hsucc ⊢
  have hp₄ : Pres s₃ s₄ := by
    have : Pres s₃ (match doc.components.responses with
        | none => (s₃, none)
        | some m => foldErr (fun (e : GoStr × RefId) s => resolveResponseRef env fuel doc e.2 s)
            m s₃).1 := by
      rcases doc.components.responses with _ | m
      · exact Pres.refl s₃
      · exact foldErr_pres _ (fun e s => resolveResponseRef_pres env fuel doc e.2 s) m s₃
    rwa [h₄] at this
  have hA₄ : MemAll doc.components.responses s₄ := by
    intro m hm e he
    rw [hm] at h₄
    dsimp only at h₄
    have := foldErr_mem _ (fun (e : GoStr × RefId) => e.2)
      (fun x s => resolveResponseRef_pres env fuel doc x.2 s)
      (fun x s h => resolveResponseRef_mem env fuel doc x.2 s h) m s₃
    rw [h₄] at this
    exact this rfl e he
  rcases h₅ : (match doc.components.schemas with
      | none => (s₄, none)
      | some m => foldErr (fun (e : GoStr × RefId) s => resolveSchemaRef env fuel doc e.2 s)
          m s₄) with ⟨s₅, r₅⟩
  rw [h₅] at hsucc ⊢
  rcases r₅ with _ | e
  swap
  · exact absurd hsucc (by simp)
  dsimp only at hsucc ⊢
  have hp₅ : Pres s₄ s₅ := by
    have : Pres s₄ (match doc.components.schemas with
        | none => (s₄, none)
        | some m => foldErr (fun (e : GoStr × RefId) s => resolveSchemaRef env fuel doc e.2 s)
            m s₄).1 := by
      rcases doc.components.schemas with _ | m
      · exact Pres.refl s₄
      · exact foldErr_pres _ (fun e s => schemaStep_pres env doc fuel (.one e.2) s) m s₄
    rwa [h₅] at this
  have hA₅ : MemAll doc.components.schemas s₅ := by
    intro m hm e he
    rw [hm] at h₅
    dsimp only at h₅
    have := foldErr_mem (fun (x : GoStr × RefId) s => resolveSchemaRef env fuel doc x.2 s)
      (fun (e : GoStr × RefId) => e.2)
      (fun x s => schemaStep_pres env doc fuel (.one x.2) s)
      (fun x s h => schemaStep_one_mem env fuel doc x.2 s h) m s₄
    rw [h₅] at this
    exact this rfl e he
  rcases h₆ : (match doc.components.securitySchemes with
      | none => (s₅, none)
      | some m => foldErr
          (fun (e : GoStr × RefId) s => resolveSecuritySchemeRef env fuel doc e.2 s) m s₅)
      with ⟨s₆, r₆⟩
  rw [h₆] at hsucc ⊢
  rcases r₆ with _ | e
  swap
  · exact absurd hsucc (by simp)
  dsimp only at hsucc ⊢
  have hp₆ : Pres s₅ s₆ := by
    have : Pres s₅ (match doc.components.securitySchemes with
        | none => (s₅, none)
        | some m => foldErr
            (fun (e : GoStr × RefId) s => resolveSecuritySchemeRef env fuel doc e.2 s) m s₅).1 := by
      rcases doc.components.securitySchemes with _ | m
      · exact Pres.refl s₅
      · exact foldErr_pres _ (fun e s => resolveSecuritySchemeRef_pres env fuel doc e.2 s) m s₅
    rwa [h₆] at this
  have hA₆ : MemAll doc.components.securitySchemes s₆ := by
    intro m hm e he
    rw [hm] at h₆
    dsimp only at h₆
    have := foldErr_mem _ (fun (e : GoStr × RefId) => e.2)
      (fun x s => resolveSecuritySchemeRef_pres env fuel doc x.2 s)
      (fun x s h => resolveSecuritySchemeRef_mem env fuel doc x.2 s h) m s₅
    rw [h₆] at this
    exact this rfl e he
  have hp₇ : Pres s₆ (match doc.paths with
      | none => (s₆, none)
      | some paths => foldErr (fun (p : GoStr × Option PathItem) s =>
            match p.2 with
            | none => (s, none)
            | some pi => foldErr (fun op s => resolveOperation env fuel doc op s)
                pi.operations s) paths s₆).1 := by
    rcases doc.paths with _ | paths
    · exact Pres.refl s₆
    · refine foldErr_pres _ (fun p s => ?_) paths s₆
      rcases p.2 with _ | pi
      · exact Pres.refl s
      · exact foldErr_pres _ (fun op s => resolveOperation_pres env fuel doc op s)
          pi.operations s
  refine ⟨((((hA₁.memAll_mono hp₂).memAll_mono hp₃).memAll_mono hp₄).memAll_mono
              hp₅).memAll_mono hp₆ |>.memAll_mono hp₇,
          (((hA₂.memAll_mono hp₃).memAll_mono hp₄).memAll_mono hp₅).memAll_mono hp₆
            |>.memAll_mono hp₇,
          ((hA₃.memAll_mono hp₄).memAll_mono hp₅).memAll_mono hp₆ |>.memAll_mono hp₇,
          (hA₄.memAll_mono hp₅).memAll_mono hp₆ |>.memAll_mono hp₇,
          hA₅.memAll_mono hp₆ |>.memAll_mono hp₇,
          hA₆.memAll_mono hp₇⟩

/-! ## Zero-reference frame lemmas -/

/-- Every Ref node carries a non-null Value in `s`. -/
def VOK (s : State) : Prop := ∀ d, s.value d ≠ none

/-- Frame property of one call: the Value fields are untouched and the only
possible failure is the fuel-exhaustion model artifact. -/
def Frame (s : State) (out : State × Option RErr) : Prop :=
  out.1.value = s.value ∧ (out.2 = none ∨ out.2 = some RErr.outOfFuel)

theorem Frame.vok {s : State} {out : State × Option RErr} (h : Frame s out) (hv : VOK s) :
    VOK out.1 := fun d => by rw [h.1]; exact hv d

theorem Frame.andThenH {s : State} {r : State × Option RErr} {k : State → State × Option RErr}
    (h₁ : VOK s → Frame s r) (h₂ : ∀ s', VOK s' → Frame s' (k s'))
    (hv : VOK s) : Frame s (andThen r k) := by
  rcases hr : r with ⟨s₁, r₁⟩
  have h₁' := h₁ hv
  rw [hr] at h₁'
  rcases r₁ with _ | e
  · have h₂' := h₂ s₁ (by intro d; rw [h₁'.1]; exact hv d)
    exact ⟨h₂'.1.trans h₁'.1, h₂'.2⟩
  · exact ⟨h₁'.1, h₁'.2⟩

theorem Frame.foldErrH {α : Type} (f : α → State → State × Option RErr) :
    ∀ (l : List α), (∀ x ∈ l, ∀ s', VOK s' → Frame s' (f x s')) →
      ∀ (s : State), VOK s → Frame s (foldErr f l s) := by
  intro l
  induction l with
  | nil => intro _ s _; exact ⟨rfl, Or.inl rfl⟩
  | cons x xs ih =>
    intro hf s hv
    simp only [foldErr]
    rcases hx : f x s with ⟨s₁, r₁⟩
    have h₁ := hf x (List.mem_cons_self _ _) s hv
    rw [hx] at h₁
    rcases r₁ with _ | e
    · have h₂ := ih (fun z hz => hf z (List.mem_cons_of_mem _ hz)) s₁
        (by intro d; rw [h₁.1]; exact hv d)
      exact ⟨h₂.1.trans h₁.1, h₂.2⟩
    · exact ⟨h₁.1, h₁.2⟩

/-- In a world with no reference strings at all, the Schema resolver touches
no Value and can fail only by fuel exhaustion, provided every Value is
non-null (the Go code dereferences each schema Value unconditionally). -/
theorem schemaStep_noRefs (env : Env) (doc : Doc) (hr : ∀ d, env.refStr d = []) :
    ∀ (fuel : Nat) (t : SchemaTask) (s : State), VOK s →
      Frame s (schemaStep env doc fuel t s) := by
  intro fuel
  induction fuel with
  | zero => intro t s _; exact ⟨rfl, Or.inr rfl⟩
  | succ fuel ih =>
    intro t s hv
    match t with
    | .many [] => exact ⟨rfl, Or.inl rfl⟩
    | .many (c :: cs) =>
      simp only [schemaStep]
      rcases hx : schemaStep env doc fuel (.one c) s with ⟨s₁, r₁⟩
      have h₁ := ih (.one c) s hv
      rw [hx] at h₁
      rcases r₁ with _ | e
      · have h₂ := ih (.many cs) s₁ (by intro d; rw [h₁.1]; exact hv d)
        exact ⟨h₂.1.trans h₁.1, h₂.2⟩
      · exact ⟨h₁.1, h₁.2⟩
    | .one c =>
      simp only [schemaStep, refResolve]
      split
      · exact ⟨rfl, Or.inl rfl⟩
      · rw [show refFlatten env doc schemasPre (fun comps => comps.schemas)
            (fun r => RErr.unresolvableFragmentPart r "schemas".toList)
            (fun r id => RErr.unresolvableFragmentPart r id)
            (fun resolved s => schemaStep env doc fuel (SchemaTask.one resolved) s) c (s.mark c)
            = (s.mark c, none) from by simp [refFlatten, hr c]]
        dsimp only
        rcases hvc : (s.mark c).value c with _ | v
        · exact absurd hvc (hv c)
        · refine Frame.andThenH (fun hv' => ?_) (fun s₅ hv₅ => ?_) (fun d => hv d)
          · rcases env.schItems v with _ | it
            · exact ⟨rfl, Or.inl rfl⟩
            · exact ih (.one it) (s.mark c) hv'
          · refine Frame.andThenH (fun hv'' => ?_) (fun s₆ hv₆ => ?_) hv₅
            · rcases env.schProps v with _ | props
              · exact ⟨rfl, Or.inl rfl⟩
              · exact ih (.many (props.map Prod.snd)) s₅ hv''
            · rcases env.schAddl v with _ | ad
              · exact ⟨rfl, Or.inl rfl⟩
              · exact ih (.one ad) s₆ hv₆

/-- Shared frame argument for the guarded resolvers whose descent is headed
by a Value read, in a world with no reference strings. -/
theorem refResolve_noRefs_frame (env : Env) (doc : Doc) (pre : GoStr)
    (table : Components → Option (List (GoStr × RefId)))
    (errDefs : GoStr → RErr) (errId : GoStr → GoStr → RErr)
    (recur : RefId → State → State × Option RErr)
    (onNil : State → State × Option RErr)
    (descend : Nat → State → State × Option RErr)
    (hr : ∀ d, env.refStr d = [])
    (honNil : ∀ s, VOK s → Frame s (onNil s))
    (hdesc : ∀ v s, VOK s → Frame s (descend v s))
    (c : RefId) (s : State) (hv : VOK s) :
    Frame s (refResolve env doc pre table errDefs errId recur onNil descend c s) := by
  unfold refResolve
  split
  · exact ⟨rfl, Or.inl rfl⟩
  · rw [show refFlatten env doc pre table errDefs errId recur c (s.mark c)
        = (s.mark c, none) from by simp [refFlatten, hr c]]
    dsimp only
    rcases hvc : (s.mark c).value c with _ | v
    · exact honNil (s.mark c) (fun d => hv d)
    · exact hdesc v (s.mark c) (fun d => hv d)

/-- Header resolver frame property in a world with no reference strings. -/
theorem resolveHeaderRef_noRefs (env : Env) (doc : Doc) (hr : ∀ d, env.refStr d = [])
    (fuel : Nat) (c : RefId) (s : State) (hv : VOK s) :
    Frame s (resolveHeaderRef env fuel doc c s) := by
  cases fuel with
  | zero => exact ⟨rfl, Or.inr rfl⟩
  | succ fuel =>
    refine refResolve_noRefs_frame env doc _ _ _ _ _ _ _ hr
      (fun s _ => ⟨rfl, Or.inl rfl⟩) (fun v s hv => ?_) c s hv
    rcases env.headerSchema v with _ | sch
    · exact ⟨rfl, Or.inl rfl⟩
    · exact schemaStep_noRefs env doc hr fuel (.one sch) s hv

/-- Parameter resolver frame property in a world with no reference strings. -/
theorem resolveParameterRef_noRefs (env : Env) (doc : Doc) (hr : ∀ d, env.refStr d = [])
    (fuel : Nat) (c : RefId) (s : State) (hv : VOK s) :
    Frame s (resolveParameterRef env fuel doc c s) := by
  cases fuel with
  | zero => exact ⟨rfl, Or.inr rfl⟩
  | succ fuel =>
    refine refResolve_noRefs_frame env doc _ _ _ _ _ _ _ hr
      (fun s _ => ⟨rfl, Or.inl rfl⟩) (fun v s hv => ?_) c s hv
    rcases env.paramSchema v with _ | sch
    · exact ⟨rfl, Or.inl rfl⟩
    · exact schemaStep_noRefs env doc hr fuel (.one sch) s hv

/-- RequestBody resolver frame property in a world with no reference strings
and no nil content entries. -/
theorem resolveRequestBodyRef_noRefs (env : Env) (doc : Doc) (hr : ∀ d, env.refStr d = [])
    (hb : ∀ v l, env.bodyContent v = some l → ∀ e ∈ l, (e : GoStr × Option Nat).2 ≠ none)
    (fuel : Nat) (c : RefId) (s : State) (hv : VOK s) :
    Frame s (resolveRequestBodyRef env fuel doc c s) := by
  cases fuel with
  | zero => exact ⟨rfl, Or.inr rfl⟩
  | succ fuel =>
    refine refResolve_noRefs_frame env doc _ _ _ _ _ _ _ hr
      (fun s _ => ⟨rfl, Or.inl rfl⟩) (fun v s hv => ?_) c s hv
    rcases hbc : env.bodyContent v with _ | content
    · exact ⟨rfl, Or.inl rfl⟩
    · refine Frame.foldErrH _ content (fun mt hmem s' hv' => ?_) s hv
      rcases hmt : mt.2 with _ | m
      · exact absurd hmt (hb v content hbc mt hmem)
      · obtain ⟨nm, o⟩ := mt
        cases hmt
        dsimp only
        rcases env.mediaSchema m with _ | sch
        · exact ⟨rfl, Or.inl rfl⟩
        · exact schemaStep_noRefs env doc hr fuel (.one sch) s' hv'

/-- Response resolver frame property in a world with no reference strings. -/
theorem resolveResponseRef_noRefs (env : Env) (doc : Doc) (hr : ∀ d, env.refStr d = [])
    (fuel : Nat) (c : RefId) (s : State) (hv : VOK s) :
    Frame s (resolveResponseRef env fuel doc c s) := by
  cases fuel with
  | zero => exact ⟨rfl, Or.inr rfl⟩
  | succ fuel =>
    refine refResolve_noRefs_frame env doc _ _ _ _ _ _ _ hr
      (fun s _ => ⟨rfl, Or.inl rfl⟩) (fun v s hv => ?_) c s hv
    rcases env.respContent v with _ | content
    · exact ⟨rfl, Or.inl rfl⟩
    · refine Frame.foldErrH _ content (fun mt _ s' hv' => ?_) s hv
      obtain ⟨nm, o⟩ := mt
      rcases o with _ | m
      · exact ⟨rfl, Or.inl rfl⟩
      · dsimp only
        rcases env.mediaSchema m with _ | sch
        · exact ⟨rfl, Or.inl rfl⟩
        · exact schemaStep_noRefs env doc hr fuel (.one sch) s' hv'

/-- SecurityScheme resolver frame property in a world with no reference
strings. -/
theorem resolveSecuritySchemeRef_noRefs (env : Env) (doc : Doc) (hr : ∀ d, env.refStr d = [])
    (fuel : Nat) (c : RefId) (s : State) (hv : VOK s) :
    Frame s (resolveSecuritySchemeRef env fuel doc c s) := by
  cases fuel with
  | zero => exact ⟨rfl, Or.inr rfl⟩
  | succ fuel =>
    exact refResolve_noRefs_frame env doc _ _ _ _ _ _ _ hr
      (fun s _ => ⟨rfl, Or.inl rfl⟩) (fun _ s _ => ⟨rfl, Or.inl rfl⟩) c s hv

/-- Operation walk frame property in a world with no reference strings. -/
theorem resolveOperation_noRefs (env : Env) (doc : Doc) (hr : ∀ d, env.refStr d = [])
    (hb : ∀ v l, env.bodyContent v = some l → ∀ e ∈ l, (e : GoStr × Option Nat).2 ≠ none)
    (fuel : Nat) (op : Operation) (s : State) (hv : VOK s) :
    Frame s (resolveOperation env fuel doc op s) := by
  unfold resolveOperation
  refine Frame.andThenH (fun hv' => ?_) (fun s' hv' => ?_) hv
  · rcases op.parameters with _ | ps
    · exact ⟨rfl, Or.inl rfl⟩
    · exact Frame.foldErrH _ ps (fun p _ s' hv' => resolveParameterRef_noRefs env doc hr fuel p s' hv') s hv'
  · refine Frame.andThenH (fun hv'' => ?_) (fun s'' hv'' => ?_) hv'
    · rcases op.requestBody with _ | rb
      · exact ⟨rfl, Or.inl rfl⟩
      · exact resolveRequestBodyRef_noRefs env doc hr hb fuel rb s' hv''
    · rcases op.responses with _ | rs
      · exact ⟨rfl, Or.inl rfl⟩
      · exact Frame.foldErrH _ rs (fun r _ s''' hv''' => resolveResponseRef_noRefs env doc hr fuel r.2 s''' hv''') s'' hv''

/-- In a world with no reference strings, no nil content entries, and
non-null Values, the top-level walk leaves every Value exactly as it was and
can fail only by fuel exhaustion. -/
theorem resolveRefsIn_noRefs (env : Env) (doc : Doc) (hr : ∀ d, env.refStr d = [])
    (hb : ∀ v l, env.bodyContent v = some l → ∀ e ∈ l, (e : GoStr × Option Nat).2 ≠ none)
    (fuel : Nat) (s₀ : State) (hv : VOK s₀) :
    (resolveRefsIn env fuel doc s₀).1.value = s₀.value ∧
    ((resolveRefsIn env fuel doc s₀).2 = none ∨
     (resolveRefsIn env fuel doc s₀).2 = some RErr.outOfFuel) := by
  have hfr : Frame { s₀ with visited := [] } (resolveRefsIn env fuel doc s₀) := by
    unfold resolveRefsIn
    refine Frame.andThenH (fun hv₁ => ?_) (fun s₁ hv₁ => ?_) (fun d => hv d)
    · rcases doc.components.headers with _ | m
      · exact ⟨rfl, Or.inl rfl⟩
      · exact Frame.foldErrH _ m (fun e _ s hv => resolveHeaderRef_noRefs env doc hr fuel e.2 s hv) _ hv₁
    · refine Frame.andThenH (fun hv₂ => ?_) (fun s₂ hv₂ => ?_) hv₁
      · rcases doc.components.parameters with _ | m
        · exact ⟨rfl, Or.inl rfl⟩
        · exact Frame.foldErrH _ m (fun e _ s hv => resolveParameterRef_noRefs env doc hr fuel e.2 s hv) _ hv₂
      · refine Frame.andThenH (fun hv₃ => ?_) (fun s₃ hv₃ => ?_) hv₂
        · rcases doc.components.requestBodies with _ | m
          · exact ⟨rfl, Or.inl rfl⟩
          · exact Frame.foldErrH _ m (fun e _ s hv => resolveRequestBodyRef_noRefs env doc hr hb fuel e.2 s hv) _ hv₃
        · refine Frame.andThenH (fun hv₄ => ?_) (fun s₄ hv₄ => ?_) hv₃
          · rcases doc.components.responses with _ | m
            · exact ⟨rfl, Or.inl rfl⟩
            · exact Frame.foldErrH _ m (fun e _ s hv => resolveResponseRef_noRefs env doc hr fuel e.2 s hv) _ hv₄
          · refine Frame.andThenH (fun hv₅ => ?_) (fun s₅ hv₅ => ?_) hv₄
            · rcases doc.components.schemas with _ | m
              · exact ⟨rfl, Or.inl rfl⟩
              · exact Frame.foldErrH _ m (fun e _ s hv => schemaStep_noRefs env doc hr fuel (.one e.2) s hv) _ hv₅
            · refine Frame.andThenH (fun hv₆ => ?_) (fun s₆ hv₆ => ?_) hv₅
              · rcases doc.components.securitySchemes with _ | m
                · exact ⟨rfl, Or.inl rfl⟩
                · exact Frame.foldErrH _ m (fun e _ s hv => resolveSecuritySchemeRef_noRefs env doc hr fuel e.2 s hv) _ hv₆
              · rcases doc.paths with _ | paths
                · exact ⟨rfl, Or.inl rfl⟩
                · refine Frame.foldErrH _ paths (fun p _ s hv => ?_) _ hv₆
                  rcases p.2 with _ | pi
                  · exact ⟨rfl, Or.inl rfl⟩
                  · exact Frame.foldErrH _ pi.operations
                      (fun op _ s hv => resolveOperation_noRefs env doc hr hb fuel op s hv) s hv
  exact ⟨hfr.1, hfr.2⟩

/-! ## String-level lemmas for the Component Locator -/

theorem append_left_ne_nil {p q : GoStr} (h : p ≠ []) : p ++ q ≠ [] := by
  cases p
  · exact absurd rfl h
  · simp

theorem isPrefixOf_self_append (p q : GoStr) : p.isPrefixOf (p ++ q) = true := by
  induction p with
  | nil => simp [List.isPrefixOf]
  | cons x xs ih => simp [List.isPrefixOf, ih]

theorem isPrefixOf_append_of {a b : GoStr} (c : GoStr) (h : a.isPrefixOf b = true) :
    a.isPrefixOf (b ++ c) = true := by
  induction a generalizing b with
  | nil => simp [List.isPrefixOf]
  | cons x xs ih =>
    cases b with
    | nil => simp [List.isPrefixOf] at h
    | cons y ys =>
      simp only [List.cons_append, List.isPrefixOf, Bool.and_eq_true] at h ⊢
      exact ⟨h.1, ih h.2⟩

/-- `checkFragment` on a well-shaped remainder `pre ++ id` succeeds with the
bare identifier. -/
theorem checkFragment_self (comps : Components) (pre id : GoStr)
    (hslash : id.contains '/' = false) :
    checkFragment comps (pre ++ id) pre = .ok (comps, id) := by
  unfold checkFragment
  rw [if_pos (isPrefixOf_self_append pre id), List.drop_left,
    if_neg (by rw [hslash]; simp)]

/-- A local reference (starting with `#`) leaves `resolveComponent` purely as
the fragment checks on the current document. -/
theorem resolveComponent_local (env : Env) (doc : Doc) (ref pre : GoStr) (s : State)
    (hloc : ("#".toList).isPrefixOf ref = true) :
    resolveComponent env doc ref pre s = (s, checkFragment doc.components ref pre) := by
  unfold resolveComponent
  rw [if_pos hloc]

/-- The two locator-failure outcomes of the flattening block for a local,
well-shaped reference `pre ++ id`: the kind table is nil, or the identifier
is not found. -/
theorem refFlatten_local_err (env : Env) (doc : Doc) (pre : GoStr)
    (table : Components → Option (List (GoStr × RefId)))
    (errDefs : GoStr → RErr) (errId : GoStr → GoStr → RErr)
    (recur : RefId → State → State × Option RErr)
    (c : RefId) (s₁ : State) (id : GoStr)
    (href : env.refStr c = pre ++ id)
    (hpre_ne : pre ≠ [])
    (hhash : ("#".toList).isPrefixOf pre = true)
    (hslash : id.contains '/' = false) :
    (table doc.components = none →
      refFlatten env doc pre table errDefs errId recur c s₁
        = (s₁, some (errDefs (pre ++ id)))) ∧
    (∀ defs, table doc.components = some defs → defs.lookup id = none →
      refFlatten env doc pre table errDefs errId recur c s₁
        = (s₁, some (errId (pre ++ id) id))) := by
  have hcomp : resolveComponent env doc (env.refStr c) pre s₁
      = (s₁, .ok (doc.components, id)) := by
    rw [href, resolveComponent_local env doc _ pre s₁ (isPrefixOf_append_of id hhash),
      checkFragment_self doc.components pre id hslash]
  constructor
  · intro htab
    unfold refFlatten
    rw [if_neg (by rw [href]; exact append_left_ne_nil hpre_ne), hcomp]
    dsimp only
    rw [htab, href]
  · intro defs htab hlk
    unfold refFlatten
    rw [if_neg (by rw [href]; exact append_left_ne_nil hpre_ne), hcomp]
    dsimp only
    rw [htab]
    dsimp only
    rw [hlk, href]

/-- The two locator-failure outcomes at the level of the guarded resolver
skeleton. -/
theorem refResolve_local_err (env : Env) (doc : Doc) (pre : GoStr)
    (table : Components → Option (List (GoStr × RefId)))
    (errDefs : GoStr → RErr) (errId : GoStr → GoStr → RErr)
    (recur : RefId → State → State × Option RErr)
    (onNil : State → State × Option RErr)
    (descend : Nat → State → State × Option RErr)
    (c : RefId) (s : State) (id : GoStr)
    (hvis : c ∉ s.visited)
    (href : env.refStr c = pre ++ id)
    (hpre_ne : pre ≠ [])
    (hhash : ("#".toList).isPrefixOf pre = true)
    (hslash : id.contains '/' = false) :
    (table doc.components = none →
      refResolve env doc pre table errDefs errId recur onNil descend c s
        = (s.mark c, some (errDefs (pre ++ id)))) ∧
    (∀ defs, table doc.components = some defs → defs.lookup id = none →
      refResolve env doc pre table errDefs errId recur onNil descend c s
        = (s.mark c, some (errId (pre ++ id) id))) := by
  have hfl := refFlatten_local_err env doc pre table errDefs errId recur c (s.mark c) id
    href hpre_ne hhash hslash
  constructor
  · intro htab
    unfold refResolve
    rw [if_neg hvis, hfl.1 htab]
  · intro defs htab hlk
    unfold refResolve
    rw [if_neg hvis, hfl.2 defs htab hlk]

/-! ## Guard, casing and external-branch lemmas -/

theorem resolveHeaderRef_guard (env : Env) (fuel : Nat) (doc : Doc) (c : RefId) (s : State)
    (h : c ∈ s.visited) : resolveHeaderRef env (fuel + 1) doc c s = (s, none) := by
  simp only [resolveHeaderRef, refResolve]
  rw [if_pos h]

theorem resolveParameterRef_guard (env : Env) (fuel : Nat) (doc : Doc) (c : RefId) (s : State)
    (h : c ∈ s.visited) : resolveParameterRef env (fuel + 1) doc c s = (s, none) := by
  simp only [resolveParameterRef, refResolve]
  rw [if_pos h]

theorem resolveRequestBodyRef_guard (env : Env) (fuel : Nat) (doc : Doc) (c : RefId) (s : State)
    (h : c ∈ s.visited) : resolveRequestBodyRef env (fuel + 1) doc c s = (s, none) := by
  simp only [resolveRequestBodyRef, refResolve]
  rw [if_pos h]

theorem resolveResponseRef_guard (env : Env) (fuel : Nat) (doc : Doc) (c : RefId) (s : State)
    (h : c ∈ s.visited) : resolveResponseRef env (fuel + 1) doc c s = (s, none) := by
  simp only [resolveResponseRef, refResolve]
  rw [if_pos h]

theorem resolveSchemaRef_guard (env : Env) (fuel : Nat) (doc : Doc) (c : RefId) (s : State)
    (h : c ∈ s.visited) : resolveSchemaRef env (fuel + 1) doc c s = (s, none) := by
  simp only [resolveSchemaRef, schemaStep, refResolve]
  rw [if_pos h]

theorem resolveSecuritySchemeRef_guard (env : Env) (fuel : Nat) (doc : Doc) (c : RefId)
    (s : State) (h : c ∈ s.visited) :
    resolveSecuritySchemeRef env (fuel + 1) doc c s = (s, none) := by
  simp only [resolveSecuritySchemeRef, refResolve]
  rw [if_pos h]

/-- The three outcomes of the fragment checks (steps 2–4 of the Component
Locator). -/
theorem checkFragment_cases (comps : Components) (ref pre : GoStr) :
    (pre.isPrefixOf ref = false →
      checkFragment comps ref pre = .error (.unresolvableFragment ref)) ∧
    (pre.isPrefixOf ref = true → (ref.drop pre.length).contains '/' = true →
      checkFragment comps ref pre
        = .error (.unresolvableFragmentPart ref (ref.drop pre.length))) ∧
    (pre.isPrefixOf ref = true → (ref.drop pre.length).contains '/' = false →
      checkFragment comps ref pre = .ok (comps, ref.drop pre.length)) := by
  refine ⟨fun h₁ => ?_, fun h₁ h₂ => ?_, fun h₁ h₂ => ?_⟩
  · unfold checkFragment
    rw [if_neg (by rw [h₁]; simp)]
  · unfold checkFragment
    rw [if_pos h₁, if_pos h₂]
  · unfold checkFragment
    rw [if_pos h₁, if_neg (by rw [h₂]; simp)]

/-- External reference with external refs disabled: fail immediately, no
state change (in particular the Document Loader is not invoked). -/
theorem resolveComponent_disallowed (env : Env) (doc : Doc) (ref pre : GoStr) (s : State)
    (hloc : ("#".toList).isPrefixOf ref = false)
    (hext : env.isExternalRefsAllowed = false) :
    resolveComponent env doc ref pre s = (s, .error (.disallowedExternalRef ref)) := by
  unfold resolveComponent
  rw [if_neg (by rw [hloc]; simp), if_pos hext]

/-- External reference with external refs enabled and a successful load: the
loader is invoked on the locator part (with the fragment removed) and
resolution continues as the fragment checks against the loaded document. -/
theorem resolveComponent_external (env : Env) (doc : Doc) (ref pre : GoStr) (s : State)
    {doc₂ : Doc}
    (hloc : ("#".toList).isPrefixOf ref = false)
    (hext : env.isExternalRefsAllowed = true)
    (hld : env.load (locatorPart ref) = some doc₂) :
    resolveComponent env doc ref pre s =
      ({ s with loaderCalls := s.loaderCalls ++ [locatorPart ref] },
        checkFragment doc₂.components (fragmentPart ref) pre) := by
  unfold resolveComponent
  rw [if_neg (by rw [hloc]; simp), if_neg (by rw [hext]; simp)]
  dsimp only
  rw [hld]

/-! ## Concrete scenarios -/

/-- Base environment: nothing in any arena, external refs off. -/
def baseEnv : Env := {
  isExternalRefsAllowed := false
  load := fun _ => none
  refStr := fun _ => []
  headerSchema := fun _ => none
  paramSchema := fun _ => none
  bodyContent := fun _ => none
  respContent := fun _ => none
  mediaSchema := fun _ => none
  schItems := fun _ => none
  schProps := fun _ => none
  schAddl := fun _ => none }

/-- Empty components aggregate (all seven tables nil). -/
def emptyComps : Components :=
  { headers := none, parameters := none, requestBodies := none, responses := none
    schemas := none, securitySchemes := none, examples := none }

/-- Fresh pass state with all Values nil. -/
def st0 : State := { visited := [], value := fun _ => none, loaderCalls := [] }

/-- Self-referential example scenario: the example `E` in the table refers to
itself through the slash-less prefix (`"#/components/examplesE"` yields the
identifier `E` under the `"#/components/examples"` prefix constant). -/
def exSelfEnv : Env :=
  { baseEnv with
    refStr := fun c => if c = ⟨.example, 0⟩ then "#/components/examplesE".toList else [] }

/-- Document for the self-referential example scenario. -/
def exSelfDoc : Doc :=
  { components := { emptyComps with examples := some [("E".toList, ⟨.example, 0⟩)] }
    paths := none }

/-- The Example resolver never terminates on the self-referential example:
at every fuel the run ends only by exhausting the budget, with the state
untouched — the unfolding never reaches a base case. -/
theorem resolveExampleRef_selfref_diverges (s : State) :
    ∀ fuel, resolveExampleRef exSelfEnv fuel exSelfDoc ⟨.example, 0⟩ s
      = (s, some RErr.outOfFuel) := by
  intro fuel
  induction fuel with
  | zero => rfl
  | succ fuel ih =>
    have hstep : resolveExampleRef exSelfEnv (fuel + 1) exSelfDoc ⟨.example, 0⟩ s
        = (match resolveExampleRef exSelfEnv fuel exSelfDoc ⟨.example, 0⟩ s with
           | (s₃, none) =>
             (s₃.setValue ⟨.example, 0⟩ (s₃.value ⟨.example, 0⟩), none)
           | r => r) := rfl
    rw [hstep, ih]

/-- Document with empty components and no paths. -/
def emptyDoc : Doc := { components := emptyComps, paths := none }

/-- C2 scenario: a pure local chain `A → B → C` (`C` concrete with Value
arena index 0) and a pure local cycle `A2 → B2 → C2 → A2` (no Values). -/
def c2Env : Env := { baseEnv with refStr := fun c =>
    if c = ⟨.schema, 10⟩ then "#/components/schemas/B".toList
    else if c = ⟨.schema, 11⟩ then "#/components/schemas/C".toList
    else if c = ⟨.schema, 20⟩ then "#/components/schemas/B2".toList
    else if c = ⟨.schema, 21⟩ then "#/components/schemas/C2".toList
    else if c = ⟨.schema, 22⟩ then "#/components/schemas/A2".toList
    else [] }

/-- C2 scenario document. -/
def c2Doc : Doc := { components := { emptyComps with schemas := some (
    [("B".toList, ⟨.schema, 11⟩), ("C".toList, ⟨.schema, 12⟩),
     ("B2".toList, ⟨.schema, 21⟩), ("C2".toList, ⟨.schema, 22⟩),
     ("A2".toList, ⟨.schema, 20⟩)]) }, paths := none }

/-- C2 scenario initial state: only `C` carries a concrete Value. -/
def c2St : State :=
  { st0 with value := fun c => if c = ⟨.schema, 12⟩ then some 0 else none }

/-- C2: an all-local schema ref chain A→B→C flattens so that A's resolved
Value is exactly C's Value; but when the chain is closed into a cycle
(C2→A2), resolution terminates yet faults: the Go code dereferences the nil
schema Value (`value.Items` with `value == nil`) instead of resolving
successfully as the claim states. -/
theorem C2_chain_flattens_cycle_faults :
    ((resolveSchemaRef c2Env 9 c2Doc ⟨.schema, 10⟩ c2St).2 = none ∧
     (resolveSchemaRef c2Env 9 c2Doc ⟨.schema, 10⟩ c2St).1.value ⟨.schema, 10⟩ = some 0 ∧
     (resolveSchemaRef c2Env 9 c2Doc ⟨.schema, 10⟩ c2St).1.value ⟨.schema, 12⟩ = some 0) ∧
    (resolveSchemaRef c2Env 9 c2Doc ⟨.schema, 20⟩ c2St).2 = some RErr.nilDeref := by decide

/-- C4: `resolveSchemaRef` is not total on a SchemaRef with empty reference
string and nil Value — it faults with a nil-pointer dereference — whereas the
Header, Parameter, RequestBody and Response resolvers return success on the
same shape of input, exactly as the claim describes for them. -/
theorem C4_nil_value_schema_faults :
    (resolveSchemaRef baseEnv 5 emptyDoc ⟨.schema, 0⟩ st0).2 = some RErr.nilDeref ∧
    (resolveHeaderRef baseEnv 5 emptyDoc ⟨.header, 0⟩ st0).2 = none ∧
    (resolveParameterRef baseEnv 5 emptyDoc ⟨.param, 0⟩ st0).2 = none ∧
    (resolveRequestBodyRef baseEnv 5 emptyDoc ⟨.reqBody, 0⟩ st0).2 = none ∧
    (resolveResponseRef baseEnv 5 emptyDoc ⟨.resp, 0⟩ st0).2 = none := by decide

/-- C8 scenario: the document the loader serves for `other.json`,
containing schema `X`. -/
def c8Loaded : Doc :=
  { components := { emptyComps with schemas := some [("X".toList, ⟨.schema, 5⟩)] }
    paths := none }

/-- C8 scenario: external refs enabled, loader serving `other.json`. -/
def c8EnvOn : Env := { baseEnv with
  isExternalRefsAllowed := true
  load := fun l => if l = "other.json".toList then some c8Loaded else none }

/-- The C8 reference string. -/
def c8Ref : GoStr := "other.json#/components/schemas/X".toList

/-- C8: with external refs disabled the locator fails with
DisallowedExternalRef and never invokes the Document Loader (the call log
stays empty).  With external refs enabled the Loader is invoked on the
locator part `other.json`, but resolution then fails with
UnresolvableFragment even though the loaded document contains schema `X`:
the Go code strips the `#` from the fragment (`parsedURL.Fragment`) and then
compares it against the `#`-prefixed expected prefix, so the claimed
"resolution continues against the newly loaded document" can never succeed. -/
theorem C8_external_ref_evaluation :
    ((resolveComponent baseEnv emptyDoc c8Ref schemasPre st0).2
        = .error (.disallowedExternalRef c8Ref) ∧
     (resolveComponent baseEnv emptyDoc c8Ref schemasPre st0).1.loaderCalls = []) ∧
    ((resolveComponent c8EnvOn emptyDoc c8Ref schemasPre st0).1.loaderCalls
        = ["other.json".toList] ∧
     (resolveComponent c8EnvOn emptyDoc c8Ref schemasPre st0).2
        = .error (.unresolvableFragment ("/components/schemas/X".toList))) := by decide

/-- C9 scenario: for every kind, a referring node (index 100) pointing at an
existing table entry `x` (index 1), whose Value is arena index 0 with no
nested reference sites. -/
def c9Env : Env := { baseEnv with refStr := fun c =>
    if c.idx ≠ 100 then []
    else match c.kind with
      | .header => "#/components/headers/x".toList
      | .param => "#/components/parameters/x".toList
      | .reqBody => "#/components/requestBodies/x".toList
      | .resp => "#/components/responses/x".toList
      | .schema => "#/components/schemas/x".toList
      | .secScheme => "#/components/securitySchemes/x".toList
      | .example => "#/components/examples/x".toList }

/-- C9 scenario document: every table holds entry `x`. -/
def c9Doc : Doc := { components := {
    headers := some [("x".toList, ⟨.header, 1⟩)]
    parameters := some [("x".toList, ⟨.param, 1⟩)]
    requestBodies := some [("x".toList, ⟨.reqBody, 1⟩)]
    responses := some [("x".toList, ⟨.resp, 1⟩)]
    schemas := some [("x".toList, ⟨.schema, 1⟩)]
    securitySchemes := some [("x".toList, ⟨.secScheme, 1⟩)]
    examples := some [("x".toList, ⟨.example, 1⟩)] }, paths := none }

/-- C9 scenario state: every table entry carries Value 0. -/
def c9St : State := { st0 with value := fun c => if c.idx = 1 then some 0 else none }

/-- C9: a local reference `#/components/<kind>/x` to an existing entry
resolves successfully through six of the seven kind resolvers, the referring
Ref ending with the target's Value; but the Example resolver rejects
`#/components/examples/x` with UnresolvableFragmentPart, because its prefix
constant lacks the trailing slash, so the computed identifier is `/x`, which
contains `/`. -/
theorem C9_local_ref_per_kind :
    ((resolveHeaderRef c9Env 5 c9Doc ⟨.header, 100⟩ c9St).2 = none ∧
     (resolveHeaderRef c9Env 5 c9Doc ⟨.header, 100⟩ c9St).1.value ⟨.header, 100⟩ = some 0) ∧
    ((resolveParameterRef c9Env 5 c9Doc ⟨.param, 100⟩ c9St).2 = none ∧
     (resolveParameterRef c9Env 5 c9Doc ⟨.param, 100⟩ c9St).1.value ⟨.param, 100⟩ = some 0) ∧
    ((resolveRequestBodyRef c9Env 5 c9Doc ⟨.reqBody, 100⟩ c9St).2 = none ∧
     (resolveRequestBodyRef c9Env 5 c9Doc ⟨.reqBody, 100⟩ c9St).1.value ⟨.reqBody, 100⟩
        = some 0) ∧
    ((resolveResponseRef c9Env 5 c9Doc ⟨.resp, 100⟩ c9St).2 = none ∧
     (resolveResponseRef c9Env 5 c9Doc ⟨.resp, 100⟩ c9St).1.value ⟨.resp, 100⟩ = some 0) ∧
    ((resolveSchemaRef c9Env 5 c9Doc ⟨.schema, 100⟩ c9St).2 = none ∧
     (resolveSchemaRef c9Env 5 c9Doc ⟨.schema, 100⟩ c9St).1.value ⟨.schema, 100⟩ = some 0) ∧
    ((resolveSecuritySchemeRef c9Env 5 c9Doc ⟨.secScheme, 100⟩ c9St).2 = none ∧
     (resolveSecuritySchemeRef c9Env 5 c9Doc ⟨.secScheme, 100⟩ c9St).1.value
        ⟨.secScheme, 100⟩ = some 0) ∧
    (resolveExampleRef c9Env 5 c9Doc ⟨.example, 100⟩ c9St).2
        = some (.unresolvableFragmentPart ("#/components/examples/x".toList) ("/x".toList)) := by
  decide

/-- C3 counterexample scenario: an example node whose reference string is
`#bad`, already recorded in the visit state. -/
def c3Env : Env :=
  { baseEnv with refStr := fun c => if c = ⟨.example, 0⟩ then "#bad".toList else [] }

/-- C3 counterexample state: the example node is already visited. -/
def c3St : State := { st0 with visited := [⟨.example, 0⟩] }

/-- C3 counterexample: the Example resolver, unlike the other six, does not
return success immediately on an already-visited Ref — it redoes the work and
here returns an error, so the claim is false for the Example kind. -/
theorem C3_counterexample :
    (⟨.example, 0⟩ : RefId) ∈ c3St.visited ∧
    (resolveExampleRef c3Env 5 emptyDoc ⟨.example, 0⟩ c3St).2
      = some (.unresolvableFragment ("#bad".toList)) := by decide

/-- C3 (amended): the Header, Parameter, RequestBody, Response, Schema and
SecurityScheme resolvers, invoked on a Ref already recorded in the pass's
visit state, return success immediately with the state unchanged; the
Example resolver has no visit guard at all, and on a self-referential
example ref it never terminates (at every fuel the run ends only by
exhausting the recursion budget). -/
theorem C3_amended :
    (∀ (env : Env) (fuel : Nat) (doc : Doc) (c : RefId) (s : State), c ∈ s.visited →
      resolveHeaderRef env (fuel + 1) doc c s = (s, none)) ∧
    (∀ (env : Env) (fuel : Nat) (doc : Doc) (c : RefId) (s : State), c ∈ s.visited →
      resolveParameterRef env (fuel + 1) doc c s = (s, none)) ∧
    (∀ (env : Env) (fuel : Nat) (doc : Doc) (c : RefId) (s : State), c ∈ s.visited →
      resolveRequestBodyRef env (fuel + 1) doc c s = (s, none)) ∧
    (∀ (env : Env) (fuel : Nat) (doc : Doc) (c : RefId) (s : State), c ∈ s.visited →
      resolveResponseRef env (fuel + 1) doc c s = (s, none)) ∧
    (∀ (env : Env) (fuel : Nat) (doc : Doc) (c : RefId) (s : State), c ∈ s.visited →
      resolveSchemaRef env (fuel + 1) doc c s = (s, none)) ∧
    (∀ (env : Env) (fuel : Nat) (doc : Doc) (c : RefId) (s : State), c ∈ s.visited →
      resolveSecuritySchemeRef env (fuel + 1) doc c s = (s, none)) ∧
    (∀ (s : State) (fuel : Nat),
      resolveExampleRef exSelfEnv fuel exSelfDoc ⟨.example, 0⟩ s
        = (s, some RErr.outOfFuel)) :=
  ⟨resolveHeaderRef_guard, resolveParameterRef_guard, resolveRequestBodyRef_guard,
   resolveResponseRef_guard, resolveSchemaRef_guard, resolveSecuritySchemeRef_guard,
   fun s fuel => resolveExampleRef_selfref_diverges s fuel⟩

/-- C3 witness: the Header-resolver guard applied at a concrete visited node. -/
theorem C3_witness :
    resolveHeaderRef baseEnv 4 emptyDoc ⟨.header, 0⟩
      { st0 with visited := [⟨.header, 0⟩] }
      = ({ st0 with visited := [⟨.header, 0⟩] }, none) :=
  C3_amended.1 baseEnv 3 emptyDoc ⟨.header, 0⟩ _ (by decide)

/-- C7: the Component Locator.  For local references (starting with `#`) the
remainder is the reference itself; for external references with external
refs enabled and a successful load, the remainder is the fragment part and
the checks run against the loaded document, with the loader call logged on
the locator part.  Either way: no expected-prefix match gives
UnresolvableFragment, a path separator in the text after the prefix gives
UnresolvableFragmentPart, and otherwise the locator returns the resolved
document's components aggregate and the bare identifier. -/
theorem C7_locator_cases (env : Env) (doc : Doc) (ref pre : GoStr) (s : State) :
    (("#".toList).isPrefixOf ref = true →
      (pre.isPrefixOf ref = false →
        resolveComponent env doc ref pre s = (s, .error (.unresolvableFragment ref))) ∧
      (pre.isPrefixOf ref = true → (ref.drop pre.length).contains '/' = true →
        resolveComponent env doc ref pre s
          = (s, .error (.unresolvableFragmentPart ref (ref.drop pre.length)))) ∧
      (pre.isPrefixOf ref = true → (ref.drop pre.length).contains '/' = false →
        resolveComponent env doc ref pre s
          = (s, .ok (doc.components, ref.drop pre.length)))) ∧
    (∀ doc₂, ("#".toList).isPrefixOf ref = false → env.isExternalRefsAllowed = true →
      env.load (locatorPart ref) = some doc₂ →
      (pre.isPrefixOf (fragmentPart ref) = false →
        resolveComponent env doc ref pre s
          = ({ s with loaderCalls := s.loaderCalls ++ [locatorPart ref] },
             .error (.unresolvableFragment (fragmentPart ref)))) ∧
      (pre.isPrefixOf (fragmentPart ref) = true →
          ((fragmentPart ref).drop pre.length).contains '/' = true →
        resolveComponent env doc ref pre s
          = ({ s with loaderCalls := s.loaderCalls ++ [locatorPart ref] },
             .error (.unresolvableFragmentPart (fragmentPart ref)
               ((fragmentPart ref).drop pre.length)))) ∧
      (pre.isPrefixOf (fragmentPart ref) = true →
          ((fragmentPart ref).drop pre.length).contains '/' = false →
        resolveComponent env doc ref pre s
          = ({ s with loaderCalls := s.loaderCalls ++ [locatorPart ref] },
             .ok (doc₂.components, (fragmentPart ref).drop pre.length)))) := by
  constructor
  · intro hloc
    have hcf := checkFragment_cases doc.components ref pre
    refine ⟨fun h₁ => ?_, fun h₁ h₂ => ?_, fun h₁ h₂ => ?_⟩
    · rw [resolveComponent_local env doc ref pre s hloc, hcf.1 h₁]
    · rw [resolveComponent_local env doc ref pre s hloc, hcf.2.1 h₁ h₂]
    · rw [resolveComponent_local env doc ref pre s hloc, hcf.2.2 h₁ h₂]
  · intro doc₂ hloc hext hld
    have hcf := checkFragment_cases doc₂.components (fragmentPart ref) pre
    refine ⟨fun h₁ => ?_, fun h₁ h₂ => ?_, fun h₁ h₂ => ?_⟩
    · rw [resolveComponent_external env doc ref pre s hloc hext hld, hcf.1 h₁]
    · rw [resolveComponent_external env doc ref pre s hloc hext hld, hcf.2.1 h₁ h₂]
    · rw [resolveComponent_external env doc ref pre s hloc hext hld, hcf.2.2 h₁ h₂]

/-- C7 witness: the three local outcomes and the external continuation,
applied at concrete references. -/
theorem C7_witness :
    resolveComponent baseEnv emptyDoc ("#/components/parameters/p".toList) schemasPre st0
      = (st0, .error (.unresolvableFragment ("#/components/parameters/p".toList))) ∧
    resolveComponent baseEnv emptyDoc ("#/components/schemas/a/b".toList) schemasPre st0
      = (st0, .error (.unresolvableFragmentPart ("#/components/schemas/a/b".toList)
          ("a/b".toList))) ∧
    resolveComponent baseEnv emptyDoc ("#/components/schemas/a".toList) schemasPre st0
      = (st0, .ok (emptyDoc.components, "a".toList)) := by
  refine ⟨?_, ?_, ?_⟩
  · exact ((C7_locator_cases baseEnv emptyDoc _ schemasPre st0).1 (by decide)).1 (by decide)
  · exact ((C7_locator_cases baseEnv emptyDoc _ schemasPre st0).1 (by decide)).2.1
      (by decide) (by decide)
  · exact ((C7_locator_cases baseEnv emptyDoc _ schemasPre st0).1 (by decide)).2.2
      (by decide) (by decide)

/-- C6 counterexample scenario: a header ref whose reference string passes
the Component Locator but whose table is absent. -/
def c6Env : Env :=
  { baseEnv with
    refStr := fun c => if c = ⟨.header, 0⟩ then "#/components/headers/x".toList else [] }

/-- C6 counterexample: with the Headers table absent, the Header resolver
fails with UnresolvableFragment — not UnresolvableFragmentPart as the claim
states for every kind. -/
theorem C6_counterexample :
    (resolveHeaderRef c6Env 5 emptyDoc ⟨.header, 0⟩ st0).2
      = some (.unresolvableFragment ("#/components/headers/x".toList)) ∧
    RErr.isFragPart (.unresolvableFragment ("#/components/headers/x".toList)) = false := by
  decide

/-- C6 (amended): when a Ref's reference string passes the Component Locator
but the target table is absent or the bare identifier is not found, the
Parameter, RequestBody, Response, Schema, SecurityScheme and Example
resolvers fail with UnresolvableFragmentPart (naming the table on an absent
table and the identifier on a missing one), while the Header resolver fails
with UnresolvableFragment in both situations. -/
theorem C6_amended :
    (∀ (env : Env) (doc : Doc) (fuel : Nat) (s : State) (c : RefId) (id : GoStr),
      c ∉ s.visited → env.refStr c = headersPre ++ id → id.contains '/' = false →
      (doc.components.headers = none →
        (resolveHeaderRef env (fuel + 1) doc c s).2
          = some (.unresolvableFragment (headersPre ++ id))) ∧
      (∀ defs, doc.components.headers = some defs → defs.lookup id = none →
        (resolveHeaderRef env (fuel + 1) doc c s).2
          = some (.unresolvableFragment (headersPre ++ id)))) ∧
    (∀ (env : Env) (doc : Doc) (fuel : Nat) (s : State) (c : RefId) (id : GoStr),
      c ∉ s.visited → env.refStr c = paramsPre ++ id → id.contains '/' = false →
      (doc.components.parameters = none →
        (resolveParameterRef env (fuel + 1) doc c s).2
          = some (.unresolvableFragmentPart (paramsPre ++ id) ("parameters".toList))) ∧
      (∀ defs, doc.components.parameters = some defs → defs.lookup id = none →
        (resolveParameterRef env (fuel + 1) doc c s).2
          = some (.unresolvableFragmentPart (paramsPre ++ id) id))) ∧
    (∀ (env : Env) (doc : Doc) (fuel : Nat) (s : State) (c : RefId) (id : GoStr),
      c ∉ s.visited → env.refStr c = bodiesPre ++ id → id.contains '/' = false →
      (doc.components.requestBodies = none →
        (resolveRequestBodyRef env (fuel + 1) doc c s).2
          = some (.unresolvableFragmentPart (bodiesPre ++ id) ("requestBodies".toList))) ∧
      (∀ defs, doc.components.requestBodies = some defs → defs.lookup id = none →
        (resolveRequestBodyRef env (fuel + 1) doc c s).2
          = some (.unresolvableFragmentPart (bodiesPre ++ id) id))) ∧
    (∀ (env : Env) (doc : Doc) (fuel : Nat) (s : State) (c : RefId) (id : GoStr),
      c ∉ s.visited → env.refStr c = responsesPre ++ id → id.contains '/' = false →
      (doc.components.responses = none →
        (resolveResponseRef env (fuel + 1) doc c s).2
          = some (.unresolvableFragmentPart (responsesPre ++ id) ("responses".toList))) ∧
      (∀ defs, doc.components.responses = some defs → defs.lookup id = none →
        (resolveResponseRef env (fuel + 1) doc c s).2
          = some (.unresolvableFragmentPart (responsesPre ++ id) id))) ∧
    (∀ (env : Env) (doc : Doc) (fuel : Nat) (s : State) (c : RefId) (id : GoStr),
      c ∉ s.visited → env.refStr c = schemasPre ++ id → id.contains '/' = false →
      (doc.components.schemas = none →
        (resolveSchemaRef env (fuel + 1) doc c s).2
          = some (.unresolvableFragmentPart (schemasPre ++ id) ("schemas".toList))) ∧
      (∀ defs, doc.components.schemas = some defs → defs.lookup id = none →
        (resolveSchemaRef env (fuel + 1) doc c s).2
          = some (.unresolvableFragmentPart (schemasPre ++ id) id))) ∧
    (∀ (env : Env) (doc : Doc) (fuel : Nat) (s : State) (c : RefId) (id : GoStr),
      c ∉ s.visited → env.refStr c = secSchemesPre ++ id → id.contains '/' = false →
      (doc.components.securitySchemes = none →
        (resolveSecuritySchemeRef env (fuel + 1) doc c s).2
          = some (.unresolvableFragmentPart (secSchemesPre ++ id)
              ("securitySchemes".toList))) ∧
      (∀ defs, doc.components.securitySchemes = some defs → defs.lookup id = none →
        (resolveSecuritySchemeRef env (fuel + 1) doc c s).2
          = some (.unresolvableFragmentPart (secSchemesPre ++ id) id))) ∧
    (∀ (env : Env) (doc : Doc) (fuel : Nat) (s : State) (c : RefId) (id : GoStr),
      env.refStr c = examplesPre ++ id → id.contains '/' = false →
      (doc.components.examples = none →
        (resolveExampleRef env (fuel + 1) doc c s).2
          = some (.unresolvableFragmentPart (examplesPre ++ id) ("examples".toList))) ∧
      (∀ defs, doc.components.examples = some defs → defs.lookup id = none →
        (resolveExampleRef env (fuel + 1) doc c s).2
          = some (.unresolvableFragmentPart (examplesPre ++ id) id))) := by
  refine ⟨?_, ?_, ?_, ?_, ?_, ?_, ?_⟩
  · intro env doc fuel s c id hvis href hslash
    have h := refResolve_local_err env doc headersPre (fun comps => comps.headers)
      (fun r => .unresolvableFragment r) (fun r _ => .unresolvableFragment r)
      (fun resolved s => resolveHeaderRef env fuel doc resolved s)
      (fun s₄ => (s₄, none))
      (fun v s₄ => match env.headerSchema v with
        | none => (s₄, none)
        | some sch => schemaStep env doc fuel (.one sch) s₄) c s id hvis href
      (by decide) (by decide) hslash
    exact ⟨fun htab => congrArg Prod.snd (h.1 htab),
           fun defs htab hlk => congrArg Prod.snd (h.2 defs htab hlk)⟩
  · intro env doc fuel s c id hvis href hslash
    have h := refResolve_local_err env doc paramsPre (fun comps => comps.parameters)
      (fun r => .unresolvableFragmentPart r ("parameters".toList))
      (fun r id => .unresolvableFragmentPart r id)
      (fun resolved s => resolveParameterRef env fuel doc resolved s)
      (fun s₄ => (s₄, none))
      (fun v s₄ => match env.paramSchema v with
        | none => (s₄, none)
        | some sch => schemaStep env doc fuel (.one sch) s₄) c s id hvis href
      (by decide) (by decide) hslash
    exact ⟨fun htab => congrArg Prod.snd (h.1 htab),
           fun defs htab hlk => congrArg Prod.snd (h.2 defs htab hlk)⟩
  · intro env doc fuel s c id hvis href hslash
    have h := refResolve_local_err env doc bodiesPre (fun comps => comps.requestBodies)
      (fun r => .unresolvableFragmentPart r ("requestBodies".toList))
      (fun r id => .unresolvableFragmentPart r id)
      (fun resolved s => resolveRequestBodyRef env fuel doc resolved s)
      (fun s₄ => (s₄, none))
      (fun v s₄ => match env.bodyContent v with
        | none => (s₄, none)
        | some content =>
          foldErr (fun (mt : GoStr × Option Nat) s =>
            match mt.2 with
            | none => (s, some .nilDeref)
            | some m =>
              match env.mediaSchema m with
              | none => (s, none)
              | some sch => schemaStep env doc fuel (.one sch) s) content s₄) c s id hvis href
      (by decide) (by decide) hslash
    exact ⟨fun htab => congrArg Prod.snd (h.1 htab),
           fun defs htab hlk => congrArg Prod.snd (h.2 defs htab hlk)⟩
  · intro env doc fuel s c id hvis href hslash
    have h := refResolve_local_err env doc responsesPre (fun comps => comps.responses)
      (fun r => .unresolvableFragmentPart r ("responses".toList))
      (fun r id => .unresolvableFragmentPart r id)
      (fun resolved s => resolveResponseRef env fuel doc resolved s)
      (fun s₄ => (s₄, none))
      (fun v s₄ => match env.respContent v with
        | none => (s₄, none)
        | some content =>
          foldErr (fun (mt : GoStr × Option Nat) s =>
            match mt.2 with
            | none => (s, none)
            | some m =>
              match env.mediaSchema m with
              | none => (s, none)
              | some sch => schemaStep env doc fuel (.one sch) s) content s₄) c s id hvis href
      (by decide) (by decide) hslash
    exact ⟨fun htab => congrArg Prod.snd (h.1 htab),
           fun defs htab hlk => congrArg Prod.snd (h.2 defs htab hlk)⟩
  · intro env doc fuel s c id hvis href hslash
    have h := refResolve_local_err env doc schemasPre (fun comps => comps.schemas)
      (fun r => .unresolvableFragmentPart r ("schemas".toList))
      (fun r id => .unresolvableFragmentPart r id)
      (fun resolved s => schemaStep env doc fuel (.one resolved) s)
      (fun s₄ => (s₄, some .nilDeref))
      (fun v s₄ =>
        andThen
          (match env.schItems v with
           | none => (s₄, none)
           | some it => schemaStep env doc fuel (.one it) s₄)
          (fun s₅ =>
            andThen
              (match env.schProps v with
               | none => (s₅, none)
               | some props => schemaStep env doc fuel (.many (props.map Prod.snd)) s₅)
              (fun s₆ =>
                match env.schAddl v with
                | none => (s₆, none)
                | some ad => schemaStep env doc fuel (.one ad) s₆))) c s id hvis href
      (by decide) (by decide) hslash
    exact ⟨fun htab => congrArg Prod.snd (h.1 htab),
           fun defs htab hlk => congrArg Prod.snd (h.2 defs htab hlk)⟩
  · intro env doc fuel s c id hvis href hslash
    have h := refResolve_local_err env doc secSchemesPre
      (fun comps => comps.securitySchemes)
      (fun r => .unresolvableFragmentPart r ("securitySchemes".toList))
      (fun r id => .unresolvableFragmentPart r id)
      (fun resolved s => resolveSecuritySchemeRef env fuel doc resolved s)
      (fun s₄ => (s₄, none))
      (fun _ s₄ => (s₄, none)) c s id hvis href
      (by decide) (by decide) hslash
    exact ⟨fun htab => congrArg Prod.snd (h.1 htab),
           fun defs htab hlk => congrArg Prod.snd (h.2 defs htab hlk)⟩
  · intro env doc fuel s c id href hslash
    have h := refFlatten_local_err env doc examplesPre (fun comps => comps.examples)
      (fun r => .unresolvableFragmentPart r ("examples".toList))
      (fun r id => .unresolvableFragmentPart r id)
      (fun resolved s => resolveExampleRef env fuel doc resolved s)
      c s id href (by decide) (by decide) hslash
    exact ⟨fun htab => congrArg Prod.snd (h.1 htab),
           fun defs htab hlk => congrArg Prod.snd (h.2 defs htab hlk)⟩

/-- C6 witness scenario: a parameter ref with the Parameters table absent. -/
def c6wEnv : Env :=
  { baseEnv with
    refStr := fun c =>
      if c = ⟨.param, 7⟩ then "#/components/parameters/q".toList else [] }

/-- C6 witness: the Parameter resolver at a concrete absent-table input. -/
theorem C6_witness :
    (resolveParameterRef c6wEnv 5 emptyDoc ⟨.param, 7⟩ st0).2
      = some (.unresolvableFragmentPart (paramsPre ++ "q".toList) ("parameters".toList)) :=
  ((C6_amended.2.1 c6wEnv emptyDoc 4 st0 ⟨.param, 7⟩ ("q".toList) (by decide)
    (by decide) (by decide)).1 rfl)

/-- C1 counterexample scenario.  Schema node 1 (`C`) refers to `T` (node 2,
concrete Value 1 whose `Items` is node 3 = `D`); `D` refers back to `C`; `C`
also carries an initial Value 0.  Header node 0 has no ref and no Value. -/
def c1Env : Env := { baseEnv with
  refStr := fun c =>
    if c = ⟨.schema, 1⟩ then "#/components/schemas/T".toList
    else if c = ⟨.schema, 3⟩ then "#/components/schemas/C".toList
    else [],
  schItems := fun v => if v = 1 then some ⟨.schema, 3⟩ else none }

/-- C1 counterexample document. -/
def c1Doc : Doc := { components := { emptyComps with
    headers := some ([("h".toList, ⟨.header, 0⟩)]),
    schemas := some ([("C".toList, ⟨.schema, 1⟩),
                      ("T".toList, ⟨.schema, 2⟩)]) }, paths := none }

/-- C1 counterexample initial state. -/
def c1St : State := { st0 with value := fun c =>
    if c = ⟨.schema, 1⟩ then some 0 else if c = ⟨.schema, 2⟩ then some 1 else none }

/-- C1 counterexample: the pass succeeds, yet (a) the reachable header Ref
ends with a null Value, and (b) schema Ref `D` (node 3), visited by the pass
with a nonempty reference string, ends with Value 0 while following its
reference string to its target `C` (node 1) yields Value 1 — `D` copied `C`'s
Value while `C` was still in flight, and `C` was overwritten afterwards.
Both the non-nullness and the chain-flattening halves of the claim are
false as stated. -/
theorem C1_counterexample :
    (resolveRefsIn c1Env 9 c1Doc c1St).2 = none ∧
    (⟨.header, 0⟩ : RefId) ∈ (resolveRefsIn c1Env 9 c1Doc c1St).1.visited ∧
    (resolveRefsIn c1Env 9 c1Doc c1St).1.value ⟨.header, 0⟩ = none ∧
    (⟨.schema, 3⟩ : RefId) ∈ (resolveRefsIn c1Env 9 c1Doc c1St).1.visited ∧
    targetOf c1Env c1Doc ⟨.schema, 3⟩ = some ⟨.schema, 1⟩ ∧
    (resolveRefsIn c1Env 9 c1Doc c1St).1.value ⟨.schema, 3⟩ = some 0 ∧
    (resolveRefsIn c1Env 9 c1Doc c1St).1.value ⟨.schema, 1⟩ = some 1 := by decide

/-- C1 (amended): for every kind-correct world on which `ResolveRefsIn`
returns no error, every Ref visited by the pass that carries a nonempty
reference string has a well-defined target under the Component Locator;
that target is itself visited; and whenever the target carries no reference
string of its own (a concrete, settled definition) the Ref's Value is
exactly the target's Value.  Values may be null, Example refs are never
visited, and for a Ref whose target was itself still being flattened when
the copy happened only the target relationship is guaranteed. -/
theorem C1_amended (env : Env) (doc : Doc) (fuel : Nat) (s₀ : State) (hwf : WF env doc)
    (hsucc : (resolveRefsIn env fuel doc s₀).2 = none) :
    ∀ d ∈ (resolveRefsIn env fuel doc s₀).1.visited,
      env.refStr d ≠ [] →
        ∃ t, targetOf env doc d = some t ∧
          t ∈ (resolveRefsIn env fuel doc s₀).1.visited ∧
          (env.refStr t = [] →
            (resolveRefsIn env fuel doc s₀).1.value d
              = (resolveRefsIn env fuel doc s₀).1.value t) := by
  intro d hd hne
  exact resolveRefsIn_hopInv env doc hwf fuel s₀ hsucc d hd hne

/-- C1 witness scenario: header `h` (node 1) refers to concrete header `g`
(node 2, Value 0). -/
def c1wEnv : Env := { baseEnv with
  refStr := fun c => if c = ⟨.header, 1⟩ then "#/components/headers/g".toList else [] }

/-- C1 witness document. -/
def c1wDoc : Doc := { components := { emptyComps with
    headers := some ([("g".toList, ⟨.header, 2⟩),
                      ("h".toList, ⟨.header, 1⟩)]) }, paths := none }

/-- C1 witness initial state. -/
def c1wSt : State := { st0 with value := fun c => if c = ⟨.header, 2⟩ then some 0 else none }

/-- C1 witness: the amended invariant at the concrete referring header. -/
theorem C1_witness :
    ∃ t, targetOf c1wEnv c1wDoc ⟨.header, 1⟩ = some t ∧
      t ∈ (resolveRefsIn c1wEnv 9 c1wDoc c1wSt).1.visited ∧
      (c1wEnv.refStr t = [] →
        (resolveRefsIn c1wEnv 9 c1wDoc c1wSt).1.value ⟨.header, 1⟩
          = (resolveRefsIn c1wEnv 9 c1wDoc c1wSt).1.value t) :=
  C1_amended c1wEnv c1wDoc 9 c1wSt
    ⟨⟨fun v r h => Option.noConfusion h, fun v r h => Option.noConfusion h,
      fun v r h => Option.noConfusion h, fun v r h => Option.noConfusion h,
      fun v l h => Option.noConfusion h, fun v r h => Option.noConfusion h⟩,
     ⟨⟨fun l hl => by injection hl with h; subst h; decide,
       fun l hl => Option.noConfusion hl, fun l hl => Option.noConfusion hl,
       fun l hl => Option.noConfusion hl, fun l hl => Option.noConfusion hl,
       fun l hl => Option.noConfusion hl, fun l hl => Option.noConfusion hl⟩,
      fun l hl => Option.noConfusion hl⟩,
     fun l d₂ h => Option.noConfusion h⟩
    (by decide) ⟨.header, 1⟩ (by decide) (by decide)

/-- C5 counterexample scenario: an examples table whose sole entry carries an
unresolvable reference string. -/
def c5Env : Env := { baseEnv with
  refStr := fun c => if c = ⟨.example, 0⟩ then "#garbage".toList else [] }

/-- C5 counterexample document. -/
def c5Doc : Doc := { components := { emptyComps with
    headers := some ([("h".toList, ⟨.header, 0⟩)]),
    examples := some ([("e".toList, ⟨.example, 0⟩)]) }, paths := none }

/-- C5 counterexample: the top-level walk succeeds even though the Examples
table holds an entry whose reference its kind-specific resolver rejects; the
entry is never visited.  The walk therefore does not resolve all seven
component tables — Examples is skipped. -/
theorem C5_counterexample :
    (resolveRefsIn c5Env 9 c5Doc st0).2 = none ∧
    (resolveExampleRef c5Env 9 c5Doc ⟨.example, 0⟩ st0).2
      = some (.unresolvableFragment ("#garbage".toList)) ∧
    (⟨.example, 0⟩ : RefId) ∉ (resolveRefsIn c5Env 9 c5Doc st0).1.visited := by decide

/-- C5 (amended): on success, the top-level walk of `ResolveRefsIn` has run
the kind-specific resolver on (hence visited) every entry of six of the
seven component tables — Headers, Parameters, RequestBodies, Responses,
Schemas and SecuritySchemes; the Examples table is not walked. -/
theorem C5_amended (env : Env) (fuel : Nat) (doc : Doc) (s₀ : State)
    (hsucc : (resolveRefsIn env fuel doc s₀).2 = none) :
    MemAll doc.components.headers (resolveRefsIn env fuel doc s₀).1 ∧
    MemAll doc.components.parameters (resolveRefsIn env fuel doc s₀).1 ∧
    MemAll doc.components.requestBodies (resolveRefsIn env fuel doc s₀).1 ∧
    MemAll doc.components.responses (resolveRefsIn env fuel doc s₀).1 ∧
    MemAll doc.components.schemas (resolveRefsIn env fuel doc s₀).1 ∧
    MemAll doc.components.securitySchemes (resolveRefsIn env fuel doc s₀).1 :=
  resolveRefsIn_tablesVisited env fuel doc s₀ hsucc

/-- C5 witness: the walked header entry of the counterexample document is
visited. -/
theorem C5_witness :
    (⟨.header, 0⟩ : RefId) ∈ (resolveRefsIn c5Env 9 c5Doc st0).1.visited :=
  (C5_amended c5Env 9 c5Doc st0 (by decide)).1 _ rfl ("h".toList, ⟨.header, 0⟩) (by decide)

/-- C10 counterexample document: one schema entry with no reference string
and a nil Value. -/
def c10Doc : Doc := { components := { emptyComps with
    schemas := some [("s".toList, ⟨.schema, 0⟩)] }, paths := none }

/-- C10 counterexample: in `baseEnv` every Ref's reference string is empty —
a zero-reference document — yet `ResolveRefsIn` does not return success: it
faults dereferencing the nil Value of the schema entry. -/
theorem C10_counterexample :
    (resolveRefsIn baseEnv 9 c10Doc st0).2 = some RErr.nilDeref := by decide

/-- C10 (amended): for every document with zero reference strings in which
every Ref holds a non-null Value and every request-body content entry is
non-nil, `ResolveRefsIn` leaves every Ref's Value exactly unchanged and
returns no error (the only other outcome the model admits is exhaustion of
the recursion-depth budget, an artifact of the fuel encoding). -/
theorem C10_amended (env : Env) (doc : Doc) (fuel : Nat) (s₀ : State)
    (hr : ∀ d, env.refStr d = [])
    (hb : ∀ v l, env.bodyContent v = some l → ∀ e ∈ l, (e : GoStr × Option Nat).2 ≠ none)
    (hv : VOK s₀) :
    (resolveRefsIn env fuel doc s₀).1.value = s₀.value ∧
    ((resolveRefsIn env fuel doc s₀).2 = none ∨
     (resolveRefsIn env fuel doc s₀).2 = some RErr.outOfFuel) :=
  resolveRefsIn_noRefs env doc hr hb fuel s₀ hv

/-- C10 witness state: every Value non-null. -/
def c10wSt : State := { st0 with value := fun _ => some 0 }

/-- C10 witness: the frame property at the concrete zero-reference document. -/
theorem C10_witness :
    (resolveRefsIn baseEnv 9 c10Doc c10wSt).1.value = c10wSt.value ∧
    ((resolveRefsIn baseEnv 9 c10Doc c10wSt).2 = none ∨
     (resolveRefsIn baseEnv 9 c10Doc c10wSt).2 = some RErr.outOfFuel) :=
  C10_amended baseEnv c10Doc 9 c10wSt (fun _ => rfl)
    (fun _ _ h => Option.noConfusion h) (fun _ h => Option.noConfusion h)
